import Mathlib

/-!
Verification development for the JSON-utilities schema engine
(`src/js/schema.js`, second/authoritative copy starting at line 878,
plus `src/js/dom.js` and `src/js/state.js`).

The JavaScript code is shallowly embedded: JSON values become the
inductive type `Json` below, JS objects are insertion-ordered
association lists with unique keys, the DOM form state that the
collector reads through `data-schema-path` / `data-array-path` /
`data-one-of-path` / `data-pattern-path` attributes becomes the
explicit `FormState` record, and the single `fetch`-based suspension
point is modelled by an explicit fetch oracle threaded through the
pre-resolution pass.  JS `undefined` is modelled by `Option.none`
wherever a missing value is observable; JS `null` is `Json.null`.
Unbounded JS recursion (schema resolution, data collection, deep
property merge) is embedded with explicit fuel; theorems either show
the fuel never runs out or evaluate at concrete inputs where the
`Option.some` result witnesses termination.
-/

/-! String helpers.  The embedding re-implements the handful of string
operations the source uses (`startsWith`, `split`, `replace`, `trim`,
`includes`, number formatting/parsing) by structural recursion over
character lists, so that every definition in this file evaluates inside
the kernel. -/

/-- JS `s.startsWith(p)`. -/
def strStartsWith (s p : String) : Bool :=
  p.data.isPrefixOf s.data

/-- JS `s.split(c)` for a one-character separator (the source only
splits on `"/"` and `"#"`). -/
def strSplitOnChar (c : Char) (s : String) : List String :=
  let rec go : List Char → List Char → List String
    | [], acc => [String.mk acc.reverse]
    | ch :: rest, acc =>
      if ch = c then String.mk acc.reverse :: go rest []
      else go rest (ch :: acc)
  go s.data []

/-- JS `s.includes(c)` for a single character. -/
def strContainsChar (c : Char) (s : String) : Bool :=
  s.data.contains c

/-- JS `s.slice(n)` for ASCII strings. -/
def strDrop (n : Nat) (s : String) : String :=
  String.mk (s.data.drop n)

/-- JS `s.trim()` restricted to ASCII whitespace. -/
def strTrim (s : String) : String :=
  String.mk (((s.data.dropWhile Char.isWhitespace).reverse.dropWhile
    Char.isWhitespace).reverse)

/-- Decimal digits of a natural number, most significant first; the
first argument is fuel (`n` itself always suffices). -/
def natDigits : Nat → Nat → List Char
  | 0, n => [Char.ofNat (48 + n % 10)]
  | fuel + 1, n =>
    if n < 10 then [Char.ofNat (48 + n)]
    else natDigits fuel (n / 10) ++ [Char.ofNat (48 + n % 10)]

/-- JS `String(n)` for a natural number. -/
def natToStr (n : Nat) : String :=
  String.mk (natDigits n n)

/-- Parse a string as a natural number: every character a decimal
digit, at least one character. -/
def strToNatAux : List Char → Nat → Option Nat
  | [], acc => some acc
  | c :: rest, acc =>
    if c.isDigit then strToNatAux rest (acc * 10 + (c.toNat - 48))
    else none

/-- Parse a nonempty all-digit string. -/
def strToNat? (s : String) : Option Nat :=
  match s.data with
  | [] => none
  | l => strToNatAux l 0

/-- One global pass of `segment.replace(/~1/g, "/")`: left-to-right,
non-overlapping, exactly as the JS regex replace. -/
def replTilde1 : List Char → List Char
  | '~' :: '1' :: rest => '/' :: replTilde1 rest
  | c :: rest => c :: replTilde1 rest
  | [] => []

/-- One global pass of `segment.replace(/~0/g, "~")`. -/
def replTilde0 : List Char → List Char
  | '~' :: '0' :: rest => '~' :: replTilde0 rest
  | c :: rest => c :: replTilde0 rest
  | [] => []

/-- JSON-pointer segment unescaping from `resolveRef`:
`segment.replace(/~1/g, "/").replace(/~0/g, "~")`. -/
def ptrUnescape (segment : String) : String :=
  String.mk (replTilde0 (replTilde1 segment.data))


/-- JSON values.  Numbers are modelled as integers: every numeric
literal appearing in the claims and their scenarios is an integer, and
no claim depends on float semantics.  Objects are insertion-ordered
association lists, matching JS object key order. -/
inductive Json where
  | null
  | bool (b : Bool)
  | num (n : Int)
  | str (s : String)
  | arr (elems : List Json)
  | obj (entries : List (String × Json))
deriving Repr

namespace Json

/-- JS truthiness of a JSON value (`!x` in the source):
`null`, `false`, `0` and `""` are falsy, everything else truthy. -/
def jsTruthy : Json → Bool
  | .null => false
  | .bool b => b
  | .num n => n != 0
  | .str s => s != ""
  | .arr _ => true
  | .obj _ => true

/-- JS truthiness of a possibly-undefined value (`undefined` is falsy). -/
def jsTruthyO : Option Json → Bool
  | none => false
  | some v => jsTruthy v

/-- Named-property access `o.k` / `o["k"]` on a JSON value: objects
yield the first entry for the key, everything else yields `undefined`
(`none`).  Call sites in the source only access named (non-index)
properties through this operation. -/
def jsonLookup : Json → String → Option Json
  | .obj entries, key => entries.lookup key
  | _, _ => none

/-- Own-data member access `acc[segment]`: objects by key, arrays by
canonical decimal index.  This is an UNDERAPPROXIMATION of JS member
access — it drops array `length`, string indices and `length`, and
every prototype-chain property (`toString`, `constructor`, ...), all
of which are `!== undefined` in JS.  The faithful, host-environment-
parametric model is `jsMemberJs` below; this simplified form is kept
for the walks whose theorems only ever traverse own data. -/
def jsMember : Json → String → Option Json
  | .obj entries, key => entries.lookup key
  | .arr elems, key =>
    match strToNat? key with
    | some i => if natToStr i = key then elems[i]? else none
    | none => none
  | _, _ => none

/-- JS property assignment `o[k] = v` on an entry list: updates the
value in place when the key exists (keeping its position, as JS does)
and appends otherwise. -/
def objSet (entries : List (String × Json)) (key : String) (v : Json) :
    List (String × Json) :=
  match entries with
  | [] => [(key, v)]
  | (k, w) :: rest =>
    if k = key then (k, v) :: rest else (k, w) :: objSet rest key v

/-- JS `delete o[k]`: removes every entry for the key (keys are unique
in objects built by the embedded code). -/
def objDelete (entries : List (String × Json)) (key : String) :
    List (String × Json) :=
  entries.filter (fun e => e.1 ≠ key)

/-- Entry list produced by spreading a JSON value into an object
literal (`{...v}`): objects contribute their entries, arrays their
index-keyed elements, everything else nothing.  (JS also spreads the
characters of a string; no call site spreads a string schema.) -/
def spreadEntries : Json → List (String × Json)
  | .obj entries => entries
  | .arr elems => (elems.enum.map fun p => (natToStr p.1, p.2))
  | _ => []

/-- Assign every entry of `src` onto `dst` in order (the second spread
in `{...a, ...b}`, and `Object.assign(a, b)`). -/
def objAssignAll (dst src : List (String × Json)) : List (String × Json) :=
  src.foldl (fun acc e => objSet acc e.1 e.2) dst

/-- The object literal `{...a, ...b}`. -/
def jsSpread2 (a b : Json) : Json :=
  .obj (objAssignAll (spreadEntries a) (spreadEntries b))

end Json

open Json

/-- The segment list of an internal ref `#/...`:
`ref.slice(2).split("/").map(unescape)` (schema.js line 954). -/
def refSegments (ref : String) : List String :=
  (strSplitOnChar '/' (strDrop 2 ref)).map ptrUnescape

/-- The `path.reduce` walk of `resolveRef` (schema.js line 958):
`acc && acc[segment] !== undefined ? acc[segment] : null`, with JS
`null` modelled as `Json.null`. -/
def jsWalk (start : Json) (segments : List String) : Json :=
  segments.foldl
    (fun acc segment =>
      if jsTruthy acc then
        match jsMember acc segment with
        | some v => v
        | none => Json.null
      else Json.null)
    start

/-- Embedding of `resolveRef(ref)` (schema.js lines 941-970).  The root
document `state.schema` is passed explicitly; the JS `null` return is
`Json.null`. -/
def resolveRef (doc : Json) (ref : Json) : Json :=
  match ref with
  | .str r =>
    if r = "" then Json.null
    else if strStartsWith r "#" then
      if r = "#" then doc
      else if strStartsWith r "#/" then jsWalk doc (refSegments r)
      else Json.null
    else if strStartsWith r "http://" || strStartsWith r "https://" then
      .obj [("__unresolvedRef", .str r)]
    else Json.null
  | _ => Json.null

/-- The `{ __unresolvedRef: ref, description: schema.description }`
marker object; an `undefined` description key is modelled as absent. -/
def unresolvedMarker (ref : Json) (description : Option Json) : Json :=
  .obj (("__unresolvedRef", ref) ::
    (match description with
     | some d => [("description", d)]
     | none => []))

/-- The `{ __circularRef: true, description: schema.description }`
marker object. -/
def circularMarker (description : Option Json) : Json :=
  .obj (("__circularRef", .bool true) ::
    (match description with
     | some d => [("description", d)]
     | none => []))

/-- Embedding of `resolveSchema(schema, seen)` (schema.js lines
910-939) with explicit fuel; `none` means the fuel ran out (the JS
function would still be recursing).  `seen` models the `Set` of ref
strings; non-string `$ref` values are never added to it, exactly as in
the source where `resolveRef` rejects them first. -/
def resolveSchemaFuel : Nat → Json → List String → Json → Option Json
  | 0, _, _, _ => none
  | fuel + 1, doc, seen, schema =>
    match schema with
    | .bool true => some (.obj [])
    | .bool false => some (.obj [("__alwaysInvalid", .bool true)])
    | .obj entries =>
        match entries.lookup "$ref" with
        | some refv =>
          if ¬ jsTruthy refv then some schema
          else if ¬ jsTruthy doc then some schema
          else
            match refv with
            | .str r =>
              if r ∈ seen then
                some (circularMarker (entries.lookup "description"))
              else
                let resolved := resolveRef doc (.str r)
                if ¬ jsTruthy resolved then
                  some (unresolvedMarker (.str r) (entries.lookup "description"))
                else
                  let rest := objDelete entries "$ref"
                  let merged :=
                    objDelete (objAssignAll (spreadEntries resolved) rest) "$ref"
                  resolveSchemaFuel fuel doc (r :: seen) (.obj merged)
            | _ =>
              -- `seen.has(ref)` is false for a non-string ref and
              -- `resolveRef` returns null for it, so the source lands in
              -- the `__unresolvedRef` branch.
              some (unresolvedMarker refv (entries.lookup "description"))
        | none => some schema
    | .arr _ => some schema   -- arrays have no `$ref` property
    | _ => some schema        -- null / number / string returned as-is

/-- Top-level `resolveSchema(schema)` with the default empty `seen`
set.  Fuel 2 always suffices (theorem `resolveSchemaFuel_total`): the
merged node built before the only recursive call has had its `$ref`
deleted, so the recursion returns immediately. -/
def resolveSchema (doc schema : Json) : Json :=
  (resolveSchemaFuel 2 doc [] schema).getD Json.null

/-- Modelled from the spec: "walk the root document by JSON-pointer
segments"; an object member is looked up by name, an array element by
index, and a missing segment makes the whole lookup fail. -/
def specPointerLookup : Json → List String → Option Json
  | v, [] => some v
  | .obj entries, seg :: rest =>
    match entries.lookup seg with
    | some child => specPointerLookup child rest
    | none => none
  | .arr elems, seg :: rest =>
    (match strToNat? seg with
     | some i => if natToStr i = seg then
         match elems[i]? with
         | some child => specPointerLookup child rest
         | none => none
       else none
     | none => none)
  | _, _ :: _ => none

/-! Basic lemmas about the object operations and the pointer walks. -/

theorem lookup_objDelete_self (l : List (String × Json)) (k : String) :
    (objDelete l k).lookup k = none := by
  induction l with
  | nil => rfl
  | cons e rest ih =>
    obtain ⟨k1, v⟩ := e
    by_cases h : k1 = k
    · simpa [objDelete, List.filter_cons, h] using ih
    · have hbeq : (k == k1) = false := by
        simp [Ne.symm h]
      simpa [objDelete, List.filter_cons, h, List.lookup, hbeq] using ih

theorem jsWalk_null (segs : List String) : jsWalk Json.null segs = Json.null := by
  induction segs with
  | nil => rfl
  | cons s rest ih => simpa [jsWalk, jsTruthy] using ih

/-- One step of the `reduce` walk of `resolveRef`, phrased through
`jsMember`: a found member continues the walk, anything else walks on
from JS `null`.  (A JSON value with a member is an object or array,
hence truthy.) -/
theorem jsWalk_cons (v : Json) (s : String) (rest : List String) :
    jsWalk v (s :: rest)
      = match jsMember v s with
        | some child => jsWalk child rest
        | none => jsWalk Json.null rest := by
  show jsWalk _ _ = _
  cases v with
  | null => simp [jsWalk, jsTruthy, jsMember]
  | bool b => cases b <;> simp [jsWalk, jsTruthy, jsMember]
  | num n =>
    by_cases hn : n = 0 <;> simp [jsWalk, jsTruthy, jsMember, hn]
  | str t =>
    by_cases ht : t = "" <;> simp [jsWalk, jsTruthy, jsMember, ht]
  | arr elems =>
    simp only [jsWalk, List.foldl_cons, jsTruthy, jsMember]
    cases hp : strToNat? s with
    | none => simp
    | some i =>
      by_cases hc : natToStr i = s
      · simp only [hc, if_pos rfl]
        cases he : elems[i]? <;> simp
      · simp [hc]
  | obj entries =>
    simp only [jsWalk, List.foldl_cons, jsTruthy, jsMember]
    cases he : entries.lookup s <;> simp

/-- One step of the spec's JSON-pointer walk, phrased through
`jsMember`. -/
theorem specPointerLookup_cons (v : Json) (s : String) (rest : List String) :
    specPointerLookup v (s :: rest)
      = match jsMember v s with
        | some child => specPointerLookup child rest
        | none => none := by
  cases v with
  | null => simp [specPointerLookup, jsMember]
  | bool b => simp [specPointerLookup, jsMember]
  | num n => simp [specPointerLookup, jsMember]
  | str t => simp [specPointerLookup, jsMember]
  | arr elems =>
    simp only [specPointerLookup, jsMember]
    cases hp : strToNat? s with
    | none => simp
    | some i =>
      by_cases hc : natToStr i = s
      · simp only [hc, if_pos rfl]
        cases he : elems[i]? <;> simp
      · simp [hc]
  | obj entries =>
    simp [specPointerLookup, jsMember]

/-- The `reduce` walk of `resolveRef` agrees with the spec's
JSON-pointer walk: it returns the subtree whenever the pointer
resolves, and JS `null` whenever a segment is missing. -/
theorem jsWalk_eq_specPointerLookup (segs : List String) (v : Json) :
    (∀ w, specPointerLookup v segs = some w → jsWalk v segs = w)
    ∧ (specPointerLookup v segs = none → jsWalk v segs = Json.null) := by
  induction segs generalizing v with
  | nil =>
    refine ⟨fun w h => ?_, fun h => ?_⟩
    · simp only [specPointerLookup, Option.some.injEq] at h
      simpa [jsWalk] using h
    · simp [specPointerLookup] at h
  | cons s rest ih =>
    rw [specPointerLookup_cons, jsWalk_cons]
    cases hm : jsMember v s with
    | none =>
      exact ⟨fun w h => by simp at h, fun _ => jsWalk_null rest⟩
    | some child => exact ih child

theorem strStartsWith_hashSlash {r : String}
    (h : strStartsWith r "#/" = true) :
    r ≠ "" ∧ strStartsWith r "#" = true ∧ r ≠ "#" := by
  have hpre : ("#/".data).IsPrefix r.data := by
    simpa [strStartsWith, List.isPrefixOf_iff_prefix] using h
  obtain ⟨t, ht⟩ := hpre
  have hdata : r.data = '#' :: '/' :: t := by
    simpa using ht.symm
  refine ⟨?_, ?_, ?_⟩
  · intro he
    rw [he] at hdata
    simp at hdata
  · simp [strStartsWith, List.isPrefixOf_iff_prefix, hdata]
  · intro he
    rw [he] at hdata
    simp at hdata

theorem resolveSchemaFuel_one_no_ref (doc : Json) (seen : List String)
    (entries : List (String × Json)) (h : entries.lookup "$ref" = none) :
    resolveSchemaFuel 1 doc seen (.obj entries) = some (.obj entries) := by
  simp [resolveSchemaFuel, h]

/-- Resolution always returns within fuel 2: the merged node built
before the only recursive call of `resolveSchema` has had its `$ref`
deleted, so that call returns immediately.  This is the termination /
no-stack-overflow half of the cycle claim. -/
theorem resolveSchemaFuel_two_isSome (doc : Json) (seen : List String)
    (schema : Json) : (resolveSchemaFuel 2 doc seen schema).isSome = true := by
  cases schema with
  | bool b => cases b <;> rfl
  | null => rfl
  | num n => rfl
  | str s => rfl
  | arr l => rfl
  | obj entries =>
    show (resolveSchemaFuel (1 + 1) doc seen (.obj entries)).isSome = true
    simp only [resolveSchemaFuel]
    cases h : entries.lookup "$ref" with
    | none => rfl
    | some refv =>
      by_cases h1 : jsTruthy refv
      · simp only [h1]
        by_cases h2 : jsTruthy doc
        · simp only [h2]
          cases refv with
          | str r =>
            by_cases h3 : r ∈ seen
            · simp [h3]
            · simp only [h3]
              by_cases h4 : jsTruthy (resolveRef doc (.str r))
              · simp [h4, lookup_objDelete_self]
              · simp [h4]
          | null => simp [jsTruthy] at h1
          | bool b => simp
          | num n => simp
          | arr l => simp
          | obj o => simp
        · simp [h2]
      · simp [h1]

/-! The faithful member-access model for the reduce walk of
`resolveRef`.  JS member access `acc[segment]` can yield values that
are not part of the JSON document: an array's `length`, a string's
indices and `length`, and every prototype-chain property (`toString`,
`constructor`, ...) are `!== undefined`.  Prototype chains and host
objects are part of the browser, outside the repository source, so —
like the fetch pipeline for external refs — they are modelled as an
oracle the development is parametric in. -/

/-- A value flowing through the JS member-access walk: either a JSON
value of the document, or a host value — a function or other non-JSON
object reached through a prototype chain — identified opaquely. -/
inductive JsVal where
  | data (j : Json)
  | host (id : Nat)
deriving Repr

/-- JS truthiness of a walk value: host values (functions, prototype
objects) are always truthy. -/
def jsTruthyV : JsVal → Bool
  | .data j => jsTruthy j
  | .host _ => true

/-- The host environment: `protoMember b k` is the value of `b[k]`
found on the prototype chain of the JSON value `b` after its own data
misses (`none` models `undefined`); `hostMember h k` is member access
on a host value; `hostSpread h` is the list of own enumerable
JSON-representable properties a host value contributes to a spread
`{...v}` (standard built-in functions contribute none). -/
structure JsEnv where
  protoMember : Json → String → Option JsVal
  hostMember : Nat → String → Option JsVal
  hostSpread : Nat → List (String × Json)

/-- Faithful JS member access `b[key]` on a JSON value: own data first
(object keys; array canonical indices and `length`; string canonical
indices and `length`), then the prototype chain via the environment.
JS `null` never reaches member access in the walk (the `acc &&` guard
short-circuits first), so its members are irrelevant. -/
def jsMemberJs (env : JsEnv) : Json → String → Option JsVal
  | .obj entries, key =>
    match entries.lookup key with
    | some v => some (.data v)
    | none => env.protoMember (.obj entries) key
  | .arr elems, key =>
    if key = "length" then some (.data (.num elems.length))
    else
      match strToNat? key with
      | some i =>
        if natToStr i = key then
          match elems[i]? with
          | some v => some (.data v)
          | none => env.protoMember (.arr elems) key
        else env.protoMember (.arr elems) key
      | none => env.protoMember (.arr elems) key
  | .str s, key =>
    if key = "length" then some (.data (.num s.length))
    else
      match strToNat? key with
      | some i =>
        if natToStr i = key then
          match s.data[i]? with
          | some c => some (.data (.str (String.mk [c])))
          | none => env.protoMember (.str s) key
        else env.protoMember (.str s) key
      | none => env.protoMember (.str s) key
  | .num n, key => env.protoMember (.num n) key
  | .bool b, key => env.protoMember (.bool b) key
  | .null, _ => none

/-- Member access on a walk value. -/
def jsMemberV (env : JsEnv) : JsVal → String → Option JsVal
  | .data j, key => jsMemberJs env j key
  | .host h, key => env.hostMember h key

/-- One step of the `path.reduce` in `resolveRef` (schema.js line
958): `acc && acc[segment] !== undefined ? acc[segment] : null` — by
JS precedence `(acc && (acc[segment] !== undefined)) ? acc[segment] :
null`, so a falsy accumulator and an undefined member both yield JS
null (and the short circuit is why `null[segment]` never throws). -/
def jsStepV (env : JsEnv) (acc : JsVal) (segment : String) : JsVal :=
  if jsTruthyV acc then
    match jsMemberV env acc segment with
    | some v => v
    | none => .data Json.null
  else .data Json.null

/-- The full reduce walk of `resolveRef` under a host environment. -/
def jsWalkJs (env : JsEnv) (start : Json) (segments : List String) : JsVal :=
  segments.foldl (jsStepV env) (.data start)

/-- `resolveRef(ref)` (schema.js lines 941-970) under the faithful
member-access model; the root document `state.schema` is explicit. -/
def resolveRefJs (env : JsEnv) (doc : Json) (ref : Json) : JsVal :=
  match ref with
  | .str r =>
    if r = "" then .data Json.null
    else if strStartsWith r "#" then
      if r = "#" then .data doc
      else if strStartsWith r "#/" then jsWalkJs env doc (refSegments r)
      else .data Json.null
    else if strStartsWith r "http://" || strStartsWith r "https://" then
      .data (.obj [("__unresolvedRef", .str r)])
    else .data Json.null
  | _ => .data Json.null

/-- Entry list of the spread `{...resolved}` on a walk value: objects
contribute their entries, arrays and strings their index-keyed
elements and characters, other primitives nothing, host values
whatever the environment says. -/
def spreadEntriesV (env : JsEnv) : JsVal → List (String × Json)
  | .data (.obj entries) => entries
  | .data (.arr elems) => elems.enum.map fun p => (natToStr p.1, p.2)
  | .data (.str s) =>
      s.data.enum.map fun p => (natToStr p.1, .str (String.mk [p.2]))
  | .data _ => []
  | .host h => env.hostSpread h

/-- `resolveSchema(schema, seen)` (schema.js lines 910-939) under the
faithful member-access model, with explicit fuel exactly as in
`resolveSchemaFuel`. -/
def resolveSchemaJsFuel (env : JsEnv) :
    Nat → Json → List String → Json → Option Json
  | 0, _, _, _ => none
  | fuel + 1, doc, seen, schema =>
    match schema with
    | .bool true => some (.obj [])
    | .bool false => some (.obj [("__alwaysInvalid", .bool true)])
    | .obj entries =>
        match entries.lookup "$ref" with
        | some refv =>
          if ¬ jsTruthy refv then some schema
          else if ¬ jsTruthy doc then some schema
          else
            match refv with
            | .str r =>
              if r ∈ seen then
                some (circularMarker (entries.lookup "description"))
              else
                let resolved := resolveRefJs env doc (.str r)
                if ¬ jsTruthyV resolved then
                  some (unresolvedMarker (.str r) (entries.lookup "description"))
                else
                  let rest := objDelete entries "$ref"
                  let merged :=
                    objDelete (objAssignAll (spreadEntriesV env resolved) rest)
                      "$ref"
                  resolveSchemaJsFuel env fuel doc (r :: seen) (.obj merged)
            | _ =>
              some (unresolvedMarker refv (entries.lookup "description"))
        | none => some schema
    | _ => some schema

/-- `resolveSchema(schema)` with the default empty `seen` under the
faithful model; fuel 2 suffices exactly as for `resolveSchemaFuel`
(the merged node has had its `$ref` deleted before the one recursive
call). -/
def resolveSchemaJs (env : JsEnv) (doc schema : Json) : Json :=
  (resolveSchemaJsFuel env 2 doc [] schema).getD Json.null

/-- The trivial host environment (empty prototype chains); the
theorems below that quantify over every `JsEnv` can be instantiated
with it — or with the real browser environment. -/
def env0 : JsEnv :=
  ⟨fun _ _ => none, fun _ _ => none, fun _ => []⟩

/-- Own data shadows everything: a member found by the own-data access
is found identically by the faithful access under every environment,
and its base (an object or array) is truthy. -/
theorem jsMemberJs_of_jsMember (env : JsEnv) (v : Json) (s : String)
    (child : Json) (h : jsMember v s = some child) :
    jsMemberJs env v s = some (.data child) ∧ jsTruthy v = true := by
  cases v with
  | null => simp [jsMember] at h
  | bool b => simp [jsMember] at h
  | num n => simp [jsMember] at h
  | str t => simp [jsMember] at h
  | obj entries =>
    simp only [jsMember] at h
    exact ⟨by simp [jsMemberJs, h], rfl⟩
  | arr elems =>
    simp only [jsMember] at h
    cases hp : strToNat? s with
    | none =>
      rw [hp] at h
      exact absurd h (by simp)
    | some i =>
      rw [hp] at h
      have h2 : (if natToStr i = s then elems[i]? else none) = some child := h
      by_cases hc : natToStr i = s
      · rw [if_pos hc] at h2
        have hlen : ¬ s = "length" := by
          intro he
          rw [he] at hp
          have hnone : strToNat? "length" = none := by decide
          rw [hnone] at hp
          exact Option.noConfusion hp
        refine ⟨?_, rfl⟩
        simp [jsMemberJs, hlen, hp, hc, h2]
      · rw [if_neg hc] at h2
        exact absurd h2 (by simp)

/-- On every pointer-resolvable path the faithful walk agrees with the
spec pointer walk under every host environment: own data is traversed
before any JS quirk can fire. -/
theorem jsWalkJs_eq_pointer_of_success (env : JsEnv) (segs : List String)
    (v w : Json) (h : specPointerLookup v segs = some w) :
    List.foldl (jsStepV env) (.data v) segs = .data w := by
  induction segs generalizing v with
  | nil =>
    simp only [specPointerLookup, Option.some.injEq] at h
    simp [h]
  | cons s rest ih =>
    rw [specPointerLookup_cons] at h
    cases hm : jsMember v s with
    | none =>
      rw [hm] at h
      exact absurd h (by simp)
    | some child =>
      rw [hm] at h
      obtain ⟨hmj, htr⟩ := jsMemberJs_of_jsMember env v s child hm
      have hstep : jsStepV env (.data v) s = .data child := by
        simp [jsStepV, jsTruthyV, htr, jsMemberV, hmj]
      rw [List.foldl_cons, hstep]
      exact ih child h

/-- C3 counterexample, refuting the missing-segment half of the claim:
in the document `{"a": [1, 2]}` the pointer `#/a/length` has a missing
segment (an RFC 6901 array has no `length` member), so the claim
demands the `__unresolvedRef` marker; but under EVERY host environment
the walk of `resolveRef` returns the JS-present array length `2`
(truthy), and `resolveSchema` spreads the number into `{}` — no marker
is produced. -/
theorem pointer_miss_without_marker_counterexample :
    specPointerLookup (.obj [("a", .arr [.num 1, .num 2])])
        (refSegments "#/a/length") = none
    ∧ ∀ env : JsEnv,
        resolveRefJs env (.obj [("a", .arr [.num 1, .num 2])])
            (.str "#/a/length") = .data (.num 2)
        ∧ resolveSchemaJs env (.obj [("a", .arr [.num 1, .num 2])])
            (.obj [("$ref", .str "#/a/length")]) = .obj [] :=
  ⟨rfl, fun _ => ⟨rfl, rfl⟩⟩

/-- C3 (amended): for every internal reference `#/a/b` over a truthy
document and EVERY host environment, (1) whenever the JSON pointer
resolves (segments split on `/`, unescaped `~1` → `/`, `~0` → `~`),
`resolveRef` returns exactly the subtree at the pointer — own document
data shadows every prototype quirk; and (2) whenever the walk result
is falsy — in particular JS null from a segment that is absent as a JS
member, not merely absent as pointer data — `resolveSchema` returns
the `__unresolvedRef` marker.  Totality of the embedded functions
models "never throws", which the `acc &&` short circuit guarantees in
the source. -/
theorem internal_ref_subtree_amended (doc : Json) (r : String)
    (h : strStartsWith r "#/" = true) (hdoc : jsTruthy doc = true) :
    (∀ (env : JsEnv) (v : Json),
        specPointerLookup doc (refSegments r) = some v →
        resolveRefJs env doc (.str r) = .data v)
    ∧ (∀ env : JsEnv,
        jsTruthyV (resolveRefJs env doc (.str r)) = false →
        resolveSchemaJs env doc (.obj [("$ref", .str r)])
          = .obj [("__unresolvedRef", .str r)]) := by
  obtain ⟨hne, hsh, hneq⟩ := strStartsWith_hashSlash h
  have hres : ∀ env : JsEnv,
      resolveRefJs env doc (.str r) = jsWalkJs env doc (refSegments r) := by
    intro env
    simp [resolveRefJs, hne, hsh, hneq, h]
  constructor
  · intro env v hv
    rw [hres env]
    exact jsWalkJs_eq_pointer_of_success env (refSegments r) doc v hv
  · intro env hf
    have ht : jsTruthy (Json.str r) = true := by simp [jsTruthy, hne]
    simp [resolveSchemaJs, resolveSchemaJsFuel, List.lookup, ht, hdoc, hf,
      unresolvedMarker]

/-- Witness for the amended internal-reference theorem: in the
document `{"a": {"b": 42}}` under the trivial environment the pointer
`#/a/b` resolves to `42`, and the dangling pointer `#/a/x` produces
the `__unresolvedRef` marker. -/
theorem internal_ref_subtree_amended_witness :
    resolveRefJs env0 (.obj [("a", .obj [("b", .num 42)])]) (.str "#/a/b")
        = .data (.num 42)
    ∧ resolveSchemaJs env0 (.obj [("a", .obj [("b", .num 42)])])
        (.obj [("$ref", .str "#/a/x")])
        = .obj [("__unresolvedRef", .str "#/a/x")] :=
  ⟨(internal_ref_subtree_amended (.obj [("a", .obj [("b", .num 42)])])
      "#/a/b" rfl rfl).1 env0 (.num 42) rfl,
   (internal_ref_subtree_amended (.obj [("a", .obj [("b", .num 42)])])
      "#/a/x" rfl rfl).2 env0 rfl⟩

/-- A schema document with a `$ref` cycle of length 1:
`{"$defs": {"a": {"$ref": "#/$defs/a"}}}`. -/
def cyclicDoc : Json :=
  .obj [("$defs", .obj [("a", .obj [("$ref", .str "#/$defs/a")])])]

/-- C4: resolution of a cyclic reference always terminates (fuel 2
suffices for every input, so there is no infinite loop or stack
overflow), but it does NOT yield the `CircularRef` marker: on the
length-1 cycle of `cyclicDoc` the source deletes the referent's own
chained `$ref` while merging (`delete merged.$ref`, schema.js line
2601/937), so resolution stops after one hop and returns the
referent's remaining keywords — here the empty object — and the
`__circularRef` branch is unreachable from the default empty `seen`
set. -/
theorem resolveSchema_cycle_terminates_but_no_circular_marker :
    (∀ (doc : Json) (seen : List String) (schema : Json),
        (resolveSchemaFuel 2 doc seen schema).isSome = true)
    ∧ resolveSchema cyclicDoc (.obj [("$ref", .str "#/$defs/a")]) = .obj [] :=
  ⟨resolveSchemaFuel_two_isSome, rfl⟩

/-! Structural equality of JSON values, used to model the JS `Set`
that deduplicates `required` entries (SameValueZero; `required` arrays
hold strings in every real schema, for which structural equality is
exact). -/

mutual

def jsonBeq : Json → Json → Bool
  | .null, .null => true
  | .bool a, .bool b => a == b
  | .num a, .num b => a == b
  | .str a, .str b => a == b
  | .arr xs, .arr ys => jsonListBeq xs ys
  | .obj xs, .obj ys => jsonObjBeq xs ys
  | _, _ => false

def jsonListBeq : List Json → List Json → Bool
  | [], [] => true
  | x :: xs, y :: ys => jsonBeq x y && jsonListBeq xs ys
  | _, _ => false

def jsonObjBeq : List (String × Json) → List (String × Json) → Bool
  | [], [] => true
  | (k, v) :: xs, (l, w) :: ys => k == l && jsonBeq v w && jsonObjBeq xs ys
  | _, _ => false

end

/-- `Set.add` on the `requiredFields` set: append unless already
present. -/
def requiredAdd (l : List Json) (x : Json) : List Json :=
  if l.any (fun y => jsonBeq y x) then l else l ++ [x]

/-- The `isTargetObjectSchema` / `isSourceObjectSchema` test of
`deepMergeProperties` (schema.js lines 1526-1536): a non-array object
whose `type` is `"object"` or whose `properties` is truthy, and whose
`properties` is truthy. -/
def isObjectSchemaForMerge : Json → Bool
  | .obj o =>
    ((match o.lookup "type" with
      | some (.str t) => t == "object"
      | _ => false)
     || jsTruthyO (o.lookup "properties"))
    && jsTruthyO (o.lookup "properties")
  | _ => false

/-- The elements of a `required` value when spread into a `Set`:
only arrays spread; the source would throw on a truthy non-array,
which no real schema produces, so the embedding treats it as empty. -/
def requiredElems : Option Json → List Json
  | some (.arr l) => l
  | _ => []

/-- One `Object.keys(source).forEach` step of `deepMergeProperties`
(schema.js lines 1521-1560); `recurse` is the deep merge applied to
the two sides' `properties`. -/
def dmpStep (recurse : Json → Json → Json)
    (result : List (String × Json)) (e : String × Json) :
    List (String × Json) :=
  let key := e.1
  let sourceValue := e.2
  let targetValueO := result.lookup key
  if (match targetValueO with
      | some tv => isObjectSchemaForMerge tv
      | none => false)
     && isObjectSchemaForMerge sourceValue then
    match targetValueO, sourceValue with
    | some (.obj tv), .obj sv =>
      let mergedProps := recurse
        ((tv.lookup "properties").getD Json.null)
        ((sv.lookup "properties").getD Json.null)
      let mergedChild := objSet (objAssignAll tv sv) "properties" mergedProps
      let mergedChild :=
        if jsTruthyO (tv.lookup "required")
           || jsTruthyO (sv.lookup "required") then
          let mergedRequired :=
            (requiredElems (tv.lookup "required")
              ++ requiredElems (sv.lookup "required")).foldl requiredAdd []
          if mergedRequired.length > 0 then
            objSet mergedChild "required" (.arr mergedRequired)
          else mergedChild
        else mergedChild
      objSet result key (.obj mergedChild)
    | _, _ => objSet result key sourceValue
  else objSet result key sourceValue

/-- Embedding of `deepMergeProperties(target, source)` (schema.js
lines 1515-1563) with explicit fuel; each recursive call descends into
the `properties` of a source entry, so the size of `source` always
suffices (see `deepMergeProperties` below). -/
def deepMergePropsFuel : Nat → Json → Json → Json
  | 0, target, _ => target
  | fuel + 1, target, source =>
    match source with
    | .obj srcEntries =>
      (match target with
       | .obj _ | .arr _ =>
         .obj (srcEntries.foldl
           (dmpStep (fun t s => deepMergePropsFuel fuel t s))
           (spreadEntries target))
       | _ => source)
       -- `!target || typeof target !== 'object'` → return source
    | .arr _ =>
      (match target with
       | .obj _ | .arr _ =>
         -- `Object.keys` of an array source iterates its indices; no
         -- index entry is an object schema, so each is assigned directly.
         .obj (objAssignAll (spreadEntries target) (spreadEntries source))
       | _ => source)
    | _ => target  -- `!source || typeof source !== 'object'` → return target

mutual

/-- Computable structural size of a JSON value, used as fuel. -/
def jsonFuelSize : Json → Nat
  | .obj entries => 1 + jsonObjFuelSize entries
  | .arr elems => 1 + jsonListFuelSize elems
  | _ => 1

def jsonListFuelSize : List Json → Nat
  | [] => 0
  | x :: xs => jsonFuelSize x + jsonListFuelSize xs

def jsonObjFuelSize : List (String × Json) → Nat
  | [] => 0
  | e :: xs => 1 + jsonFuelSize e.2 + jsonObjFuelSize xs

end

/-- `deepMergeProperties` with always-sufficient fuel: the recursion
descends strictly inside `source`, so the size of `source` bounds its
depth.  The fuel depends only on `source`, which is what the
`allOf`-associativity proof uses. -/
def deepMergeProperties (target source : Json) : Json :=
  deepMergePropsFuel (jsonFuelSize source) target source

/-- The `Object.keys(resolved).forEach` copy step of
`mergeAllOfSchemas` (schema.js lines 1593-1597): every keyword other
than `properties` and `required` is assigned onto the accumulator. -/
def mergeCopyStep (a : List (String × Json) × List Json)
    (e : String × Json) : List (String × Json) × List Json :=
  if e.1 = "properties" ∨ e.1 = "required" then a
  else (objSet a.1 e.1 e.2, a.2)

/-- The same copy loop for an array-shaped `resolved` (whose index
keys are never `properties`/`required`, so nothing is skipped). -/
def mergeAssignStep (a : List (String × Json) × List Json)
    (e : String × Json) : List (String × Json) × List Json :=
  (objSet a.1 e.1 e.2, a.2)

/-- One `allOfSchemas.forEach` step of `mergeAllOfSchemas` (schema.js
lines 1574-1598), acting on the accumulator `(merged, requiredFields)`. -/
def mergeAllOfStep (doc : Json) (acc : List (String × Json) × List Json)
    (s : Json) : List (String × Json) × List Json :=
  match resolveSchema doc s with
  | .obj rEntries =>
    let acc1 :=
      if jsTruthyO (rEntries.lookup "properties") then
        let base :=
          match acc.1.lookup "properties" with
          | some v => if jsTruthy v then v else Json.obj []
          | none => Json.obj []
        (objSet acc.1 "properties"
          (deepMergeProperties base ((rEntries.lookup "properties").getD Json.null)),
         acc.2)
      else acc
    let acc2 :=
      match rEntries.lookup "required" with
      | some (.arr reqs) => (acc1.1, reqs.foldl requiredAdd acc1.2)
      | _ => acc1
    rEntries.foldl mergeCopyStep acc2
  | .arr rElems =>
    -- `typeof resolved === 'object'` lets arrays through; they have no
    -- `properties`/`required` and `Object.keys` yields their indices.
    (spreadEntries (.arr rElems)).foldl mergeAssignStep acc
  | _ => acc  -- `!resolved || typeof resolved !== 'object'` → skip

/-- Embedding of `mergeAllOfSchemas(allOfSchemas)` (schema.js lines
1565-1606). -/
def mergeAllOfSchemas (doc : Json) (schemas : List Json) : Json :=
  match schemas with
  | [] => .obj []
  | _ =>
    let acc := schemas.foldl (mergeAllOfStep doc) ([], [])
    if acc.2.length > 0 then .obj (objSet acc.1 "required" (.arr acc.2))
    else .obj acc.1

/-- Embedding of `getSchemaType(schema)` (schema.js lines 2501-2505):
`Array.isArray(schema.type) ? schema.type[0] : schema.type`; `none`
models `undefined` (also for `[][0]`). -/
def getSchemaType (schema : Json) : Option Json :=
  match schema with
  | .obj entries =>
    match entries.lookup "type" with
    | some (.arr l) => l.head?
    | some v => some v
    | none => none
  | _ => none

/-- Does `getSchemaType` yield exactly the string `name`
(`type === "object"`-style strict comparisons)? -/
def typeIs (t : Option Json) (name : String) : Bool :=
  match t with
  | some (.str s) => s == name
  | _ => false

/-- Embedding of `deducePrimitiveType(schema)` (schema.js lines
2478-2499).  With integer-valued JSON numbers the
`typeof sample === "number"` non-integer branch cannot fire, so a
numeric `const`/`enum` sample always classifies as `"integer"`,
exactly as in the source for integral samples. -/
def deducePrimitiveType (schema : Json) : Json :=
  if ¬ jsTruthy schema then .str "string"
  else
    let t := getSchemaType schema
    if jsTruthyO t then t.getD Json.null
    else
      match jsonLookup schema "const" with
      | some c =>
        (match c with
         | .bool _ => .str "boolean"
         | .num _ => .str "integer"
         | .null => .str "null"
         | _ => .str "string")
      | none =>
        match jsonLookup schema "enum" with
        | some (.arr l) =>
          if l.length > 0 then
            match l.find? (fun v => match v with | .null => false | _ => true) with
            | none => .str "string"
            | some sample =>
              (match sample with
               | .bool _ => .str "boolean"
               | .num _ => .str "integer"
               | _ => .str "string")
          else .str "string"
        | _ => .str "string"

/-- JS `Number(raw)` restricted to optionally-signed decimal integer
literals; every other string is treated as `NaN` (`none`).  All
numeric inputs in the claims are of this shape. -/
def jsNumberParse (raw : String) : Option Int :=
  match raw.data with
  | '-' :: rest =>
    (match rest with
     | [] => none
     | l => if l.all Char.isDigit then
         (strToNatAux l 0).map (fun n => -(n : Int))
       else none)
  | l =>
    (match l with
     | [] => none
     | _ => if l.all Char.isDigit then (strToNatAux l 0).map Int.ofNat
       else none)

/-- Embedding of `coerceValue(raw, type)` (schema.js lines 2507-2538).
`raw` is always a DOM `input.value`, hence a string; `none` models the
`undefined` result.  With integer-valued numbers the finiteness and
integrality checks coincide. -/
def coerceValue (raw : String) (ty : Json) : Option Json :=
  if (match ty with | .str "string" => true | _ => false) && raw = "" then
    some (.str "")
  else if raw = "" then none
  else
    match ty with
    | .str "number" =>
      (match jsNumberParse raw with
       | some n => some (.num n)
       | none => none)
    | .str "integer" =>
      (match jsNumberParse raw with
       | some n => some (.num n)
       | none => none)
    | .str "boolean" =>
      if raw = "true" then some (.bool true)
      else if raw = "false" then some (.bool false)
      else none
    | .str "null" => if raw = "null" then some Json.null else none
    | _ => some (.str raw)

/-- The "meaningful value" test used by the collector (schema.js lines
2409-2411 and 2209-2211): not an empty string, not an empty array, not
an empty non-null object. -/
def isMeaningfulValue : Json → Bool
  | .str s => s != ""
  | .arr l => (match l with | [] => false | _ => true)
  | .obj o => (match o with | [] => false | _ => true)
  | _ => true

/-- The live DOM form state the collector reads: values of controls
keyed by `data-schema-path`, array containers (with their direct
`.array-item` count) keyed by `data-array-path`, oneOf selections
(`dataset.selectedVariant`) keyed by `data-one-of-path`, and
pattern-property entry name inputs keyed by `data-pattern-path`. -/
structure FormState where
  controls : List (String × String)
  arrays : List (String × Nat)
  oneOfSel : List (String × Nat)
  patternEntries : List (String × List String)

/-- The `oneOf` variant chosen by `collectData` (schema.js lines
2383-2387): the stored selection (default 0), falling back to variant
0 when the selected index is missing or falsy. -/
def selectOneOfVariant (variants : List Json) (sel : Option Nat) : Json :=
  let idx := sel.getD 0
  match variants[idx]? with
  | some v => if jsTruthy v then v else (variants.headD Json.null)
  | none => variants.headD Json.null

/-- The item schema used inside the array branch:
`effective.items !== undefined ? effective.items : schema.items`. -/
def arrayItemsSchema (effective schema : Json) : Option Json :=
  match jsonLookup effective "items" with
  | some v => some v
  | none => jsonLookup schema "items"

/-- Is the items schema primitive in the sense of the array branch:
`itemsSchema?.type && ['string','number','integer','boolean'].includes(itemsSchema.type)`? -/
def primitiveItemsType : Option Json → Option String
  | some is =>
    (match jsonLookup is "type" with
     | some (.str t) =>
       if t = "string" || t = "number" || t = "integer" || t = "boolean" then
         some t
       else none
     | _ => none)
  | none => none

/-- The `schema.patternProperties || {}` entry list seen through
`Object.keys` / indexed access. -/
def patternPropsOf (schema : Json) : List (String × Json) :=
  match jsonLookup schema "patternProperties" with
  | some v => if jsTruthy v then spreadEntries v else []
  | none => []

mutual

/-- Embedding of `collectData(schema, path)` (schema.js lines
2377-2476) with explicit fuel (`none` = fuel ran out, `some none` = JS
`undefined`).  `st` is the DOM form state, `rt` the
`new RegExp(pattern).test(name)` oracle (`false` for an invalid
pattern, as the source catches), `doc` the root document
`state.schema`.  Every loop iteration and recursive call consumes one
unit of fuel, so all four functions are structurally recursive on it. -/
def collectDataFuel (fuel : Nat) (st : FormState) (rt : String → String → Bool)
    (doc schema : Json) (path : String) : Option (Option Json) :=
  match fuel with
  | 0 => none
  | fuel + 1 =>
    if ¬ jsTruthy schema then some none
    else
      let effective := resolveSchema doc schema
      if ¬ jsTruthy effective then some none
      else if jsTruthyO (jsonLookup effective "__alwaysInvalid") then some none
      else
        match jsonLookup effective "oneOf" with
        | some (.arr (v0 :: vs)) =>
          collectDataFuel fuel st rt doc
            (selectOneOfVariant (v0 :: vs) (st.oneOfSel.lookup path)) path
        | _ =>
          match jsonLookup effective "allOf" with
          | some (.arr (a0 :: as0)) =>
            collectDataFuel fuel st rt doc (mergeAllOfSchemas doc (a0 :: as0)) path
          | _ =>
            let ty := getSchemaType effective
            if typeIs ty "object"
                || (¬ jsTruthyO ty
                    && (jsTruthyO (jsonLookup effective "properties")
                        || jsTruthyO (jsonLookup effective "patternProperties"))) then
              let props :=
                match jsonLookup effective "properties" with
                | some v => if jsTruthy v then spreadEntries v else []
                | none => []
              match collectObjectProps fuel st rt doc props path [] false with
              | none => none
              | some (result0, hasM0) =>
                if (patternPropsOf effective).length > 0 then
                  -- `collectPatternPropertiesData(effective, path)`,
                  -- schema.js lines 2172-2220, inlined: find the
                  -- container, then walk its entries.
                  match
                    (match st.patternEntries.lookup path with
                     | none => some []
                     | some names =>
                       collectPatternEntries fuel st rt doc
                         (patternPropsOf effective) path names 0 []) with
                  | none => none
                  | some patternData =>
                    if patternData.length > 0 then
                      -- `Object.assign(result, patternData)` and
                      -- `hasMeaningfulValue = true`; with it true, the
                      -- root and non-root returns both yield `result`.
                      some (some (.obj (objAssignAll result0 patternData)))
                    else
                      if path = "root" then some (some (.obj result0))
                      else if hasM0 then some (some (.obj result0)) else some none
                else
                  if path = "root" then some (some (.obj result0))
                  else if hasM0 then some (some (.obj result0)) else some none
            else if typeIs ty "array" then
              match st.arrays.lookup path with
              | none => if path = "root" then some (some (.arr [])) else some none
              | some count =>
                match collectArrayItems fuel st rt doc
                    (arrayItemsSchema effective schema) path 0 count [] with
                | none => none
                | some values =>
                  if path = "root" then some (some (.arr values))
                  else
                    match values with
                    | [] => some none
                    | _ => some (some (.arr values))
            else
              match st.controls.lookup path with
              | none => some none
              | some raw =>
                some (coerceValue raw
                  (if jsTruthyO ty then ty.getD Json.null else .str "string"))

/-- The `Object.entries(properties).forEach` loop of the object branch
(schema.js lines 2403-2418), threading `(result, hasMeaningfulValue)`. -/
def collectObjectProps (fuel : Nat) (st : FormState)
    (rt : String → String → Bool) (doc : Json)
    (props : List (String × Json)) (path : String)
    (result : List (String × Json)) (hasM : Bool) :
    Option (List (String × Json) × Bool) :=
  match fuel with
  | 0 => none
  | fuel + 1 =>
    match props with
    | [] => some (result, hasM)
    | (key, childSchema) :: rest =>
      let childPath := if path = "root" then key else path ++ "." ++ key
      match collectDataFuel fuel st rt doc childSchema childPath with
      | none => none
      | some (some v) =>
        if isMeaningfulValue v then
          collectObjectProps fuel st rt doc rest path (objSet result key v) true
        else collectObjectProps fuel st rt doc rest path result hasM
      | some none => collectObjectProps fuel st rt doc rest path result hasM

/-- The `arrayItems.forEach` loop of the array branch (schema.js lines
2444-2467): `idx` is the current index, `remaining` the items left. -/
def collectArrayItems (fuel : Nat) (st : FormState)
    (rt : String → String → Bool) (doc : Json) (itemsO : Option Json)
    (path : String) (idx remaining : Nat) (values : List Json) :
    Option (List Json) :=
  match fuel with
  | 0 => none
  | fuel + 1 =>
    match remaining with
    | 0 => some values
    | rem + 1 =>
      let expectedPath := path ++ "[" ++ natToStr idx ++ "]"
      match primitiveItemsType itemsO with
      | some t =>
        let values1 :=
          match st.controls.lookup expectedPath with
          | some raw =>
            (match coerceValue raw (.str t) with
             | some v =>
               if (match v with | .str "" => false | _ => true) then values ++ [v]
               else values
             | none => values)
          | none => values
        collectArrayItems fuel st rt doc itemsO path (idx + 1) rem values1
      | none =>
        let itemSchema :=
          match itemsO with
          | some is => if jsTruthy is then is else Json.obj []
          | none => Json.obj []
        match collectDataFuel fuel st rt doc itemSchema expectedPath with
        | none => none
        | some vO =>
          let values1 := match vO with | some v => values ++ [v] | none => values
          collectArrayItems fuel st rt doc itemsO path (idx + 1) rem values1

/-- The `entries.forEach` loop of `collectPatternPropertiesData`
(schema.js lines 2183-2217): each entry carries its name input's raw
value; `index` counts all entries, including skipped ones. -/
def collectPatternEntries (fuel : Nat) (st : FormState)
    (rt : String → String → Bool) (doc : Json)
    (pp : List (String × Json)) (path : String) (names : List String)
    (index : Nat) (result : List (String × Json)) :
    Option (List (String × Json)) :=
  match fuel with
  | 0 => none
  | fuel + 1 =>
    match names with
    | [] => some result
    | rawName :: rest =>
      let name := strTrim rawName
      if name = "" then
        collectPatternEntries fuel st rt doc pp path rest (index + 1) result
      else
        match (pp.map Prod.fst).find? (fun p => rt p name) with
        | none =>
          collectPatternEntries fuel st rt doc pp path rest (index + 1) result
        | some pat =>
          let patternSchema := (pp.lookup pat).getD Json.null
          let valuePath := path ++ "." ++ natToStr index ++ "_pattern_value"
          match collectDataFuel fuel st rt doc patternSchema valuePath with
          | none => none
          | some vO =>
            let result1 :=
              match vO with
              | some v => if isMeaningfulValue v then objSet result name v else result
              | none => result
            collectPatternEntries fuel st rt doc pp path rest (index + 1) result1

end

theorem lookup_objSet_self (l : List (String × Json)) (k : String) (v : Json) :
    (objSet l k v).lookup k = some v := by
  induction l with
  | nil => simp [objSet, List.lookup]
  | cons e rest ih =>
    obtain ⟨k1, w⟩ := e
    by_cases h : k1 = k
    · simp [objSet, h, List.lookup]
    · have hbeq : (k == k1) = false := by simp [Ne.symm h]
      simpa [objSet, h, List.lookup, hbeq] using ih

theorem lookup_objSet_ne (l : List (String × Json)) (k : String) (v : Json)
    (k' : String) (h : k' ≠ k) : (objSet l k v).lookup k' = l.lookup k' := by
  induction l with
  | nil => simp [objSet, List.lookup, show (k' == k) = false by simp [h]]
  | cons e rest ih =>
    obtain ⟨k1, w⟩ := e
    by_cases h1 : k1 = k
    · subst h1
      simp [objSet, List.lookup, show (k' == k1) = false by simp [h]]
    · by_cases h2 : k' = k1
      · simp [objSet, h1, List.lookup, h2]
      · simpa [objSet, h1, List.lookup, show (k' == k1) = false by simp [h2]]
          using ih

theorem resolveSchema_no_ref (doc : Json) (entries : List (String × Json))
    (h : entries.lookup "$ref" = none) :
    resolveSchema doc (.obj entries) = .obj entries := by
  simp [resolveSchema, resolveSchemaFuel, h]

/-! Array field creation and its add/remove guards (schema.js lines
1696-1745, 2261-2272, 2299-2327), for the bounded-array scenario. -/

/-- Initial slot count of `createArrayField`:
`schema.minItems ? Math.min(schema.minItems, 5) : 0` (schema.js line
1736).  A non-numeric `minItems` is not produced by any schema in
scope and is treated as absent. -/
def initialItemCount (schema : Json) : Int :=
  match jsonLookup schema "minItems" with
  | some (.num m) => if m ≠ 0 then min m 5 else 0
  | _ => 0

/-- The add-button guard (schema.js lines 1722-1728): a click adds an
item unless `maxItems !== undefined && currentCount >= maxItems`. -/
def arrayAddAllowed (schema : Json) (currentCount : Nat) : Bool :=
  match jsonLookup schema "maxItems" with
  | some (.num m) => ¬ ((currentCount : Int) ≥ m)
  | _ => true

/-- The remove-button guard (schema.js lines 2266-2272): the container
carries `dataset.minItems` (set from the schema at creation, line
1704); removal is refused when `currentCount <= minItems`. -/
def arrayRemoveAllowed (schema : Json) (currentCount : Nat) : Bool :=
  match jsonLookup schema "minItems" with
  | some (.num m) => ¬ ((currentCount : Int) ≤ m)
  | _ => true

/-- Modelled from the spec: the black-box validator capability
(`compile(schema) → document → valid`) applied to the schema
`{type: "array", items: {type: "integer"}, minItems: 2, maxItems: 2}`:
a document is valid iff it is an array of 2 integers.  The AJV engine
itself is an external library, out of the repository's source. -/
def specValidIntegerPair (doc : Json) : Bool :=
  match doc with
  | .arr elems =>
    (elems.all fun v => match v with | .num _ => true | _ => false)
      && 2 ≤ elems.length && elems.length ≤ 2
  | _ => false

/-! The renumbering pass `renumberArrayItems(container, arrayPath)`
(schema.js lines 2328-2375), acting on the DOM subtree of each
remaining `.array-item`. -/

/-- The path-carrying nodes of one `.array-item` DOM subtree: the
wrapper's own `data-schema-path`, the `[data-schema-path]` controls
inside it, the `[data-array-path]` containers inside it, and the
`[data-one-of-path]` containers inside it. -/
structure ArrayItemDom where
  schemaPath : String
  controlPaths : List String
  arrayPaths : List String
  oneOfPaths : List String

/-- `currentPath.replace(oldPath, newPath)` in the renumbering pass:
each call site has established that `currentPath` starts with
`oldPath`, so the first-occurrence replace is a start replacement. -/
def replaceStart (oldPath newPath p : String) : String :=
  newPath ++ strDrop oldPath.data.length p

/-- Rewrite of one control's `data-schema-path` (schema.js lines
2339-2348): exact match, or continuation with `.` or `[`. -/
def rewriteControlPath (oldPath newPath p : String) : String :=
  if p = oldPath then newPath
  else if strStartsWith p (oldPath ++ ".") then replaceStart oldPath newPath p
  else if strStartsWith p (oldPath ++ "[") then replaceStart oldPath newPath p
  else p

/-- Rewrite of one container's `data-array-path` / `data-one-of-path`
(schema.js lines 2353-2360 and 2365-2372): only `.` or `[`
continuations are rewritten — a container path exactly equal to the
old item path is left unchanged. -/
def rewriteContainerPath (oldPath newPath p : String) : String :=
  if strStartsWith p (oldPath ++ ".") then replaceStart oldPath newPath p
  else if strStartsWith p (oldPath ++ "[") then replaceStart oldPath newPath p
  else p

/-- Embedding of `renumberArrayItems(container, arrayPath)`: each
remaining item, in DOM order, gets `arrayPath[newIndex]` and its
descendants are rewritten relative to its old wrapper path. -/
def renumberArrayItems (arrayPath : String) (items : List ArrayItemDom) :
    List ArrayItemDom :=
  items.enum.map fun p =>
    let newIndex := p.1
    let item := p.2
    let oldPath := item.schemaPath
    let newPath := arrayPath ++ "[" ++ natToStr newIndex ++ "]"
    { schemaPath := newPath
      controlPaths := item.controlPaths.map (rewriteControlPath oldPath newPath)
      arrayPaths := item.arrayPaths.map (rewriteContainerPath oldPath newPath)
      oneOfPaths := item.oneOfPaths.map (rewriteContainerPath oldPath newPath) }

/-! External reference resolution (schema.js lines 972-1108).  The
browser `fetch` + `response.json()` pipeline is a capability passed in
as an oracle `String → Option Json`; `none` covers every failure the
`catch` block sees (network error, non-2xx status, parse error).  The
`state.externalSchemaCache` Map is an explicit association list whose
`none` values are the JS `null` failure sentinel; the third result
component counts the network fetches issued. -/

/-- The external schema cache: base URI (fragment stripped) to fetched
document, or `none` for the cached failure sentinel. -/
def SchemaCache := List (String × Option Json)

/-- `Map.set` on the cache. -/
def cacheSet (c : SchemaCache) (k : String) (v : Option Json) : SchemaCache :=
  match c with
  | [] => [(k, v)]
  | (k1, w) :: rest =>
    if k1 = k then (k1, v) :: rest else (k1, w) :: cacheSet rest k v

/-- `Map.has`/`Map.get` on the cache. -/
def cacheGet (c : SchemaCache) (k : String) : Option (Option Json) :=
  match c with
  | [] => none
  | (k1, w) :: rest => if k = k1 then some w else cacheGet rest k

/-- `ref.includes('#') ? ref.split('#') : [ref, null]` destructured to
`[baseUrl, fragment]` (schema.js line 983). -/
def splitHash (ref : String) : String × Option String :=
  if strContainsChar '#' ref then
    match strSplitOnChar '#' ref with
    | base :: frag :: _ => (base, some frag)
    | _ => (ref, none)
  else (ref, none)

/-- The fragment walk of `resolveFragment` (schema.js lines 1043-1049):
`acc && typeof acc === 'object' && segment in acc ? acc[segment] : null`. -/
def fragWalk (start : Json) (segments : List String) : Json :=
  segments.foldl
    (fun acc segment =>
      match acc with
      | .obj _ | .arr _ =>
        (match jsMember acc segment with
         | some v => v
         | none => Json.null)
      | _ => Json.null)
    start

/-- Embedding of `resolveFragment(schema, fragment)` (schema.js lines
1031-1063). -/
def resolveFragment (schema : Json) (fragment : String) : Json :=
  if fragment = "" then schema
  else if strStartsWith fragment "/" then
    fragWalk schema ((strSplitOnChar '/' (strDrop 1 fragment)).map ptrUnescape)
  else Json.null

/-- Is the fragment truthy (`!fragment` is false)? `null` and the empty
string both make `resolveExternalRef` return the whole base schema. -/
def fragTruthy : Option String → Bool
  | none => false
  | some f => f != ""

/-- Embedding of `resolveExternalRef(ref)` (schema.js lines 972-1029):
returns the JS result (`Json.null` for the JS `null`), the updated
cache, and the number of fetches issued (0 or 1). -/
def resolveExternalRef (fetch : String → Option Json) (cache : SchemaCache)
    (ref : String) : Json × SchemaCache × Nat :=
  if ref = "" then (Json.null, cache, 0)
  else if ¬ (strStartsWith ref "http://" || strStartsWith ref "https://") then
    (Json.null, cache, 0)
  else
    let bf := splitHash ref
    let baseUrl := bf.1
    let fragment := bf.2
    match cacheGet cache baseUrl with
    | some cached =>
      (match cached with
       | none => (Json.null, cache, 0)  -- previous fetch failed
       | some baseSchema =>
         if ¬ fragTruthy fragment then (baseSchema, cache, 0)
         else (resolveFragment baseSchema (fragment.getD ""), cache, 0))
    | none =>
      match fetch baseUrl with
      | none => (Json.null, cacheSet cache baseUrl none, 1)
      | some baseSchema =>
        let cache1 := cacheSet cache baseUrl (some baseSchema)
        if ¬ fragTruthy fragment then (baseSchema, cache1, 1)
        else (resolveFragment baseSchema (fragment.getD ""), cache1, 1)

mutual

/-- Embedding of `preResolveExternalRefs(schema)` (schema.js lines
1065-1108) with explicit fuel: returns the rewritten schema, the
updated cache, and the total number of fetches issued. -/
def preResolveFuel (fuel : Nat) (fetch : String → Option Json)
    (cache : SchemaCache) (schema : Json) :
    Option (Json × SchemaCache × Nat) :=
  match fuel with
  | 0 => none
  | fuel + 1 =>
    match schema with
    | .arr elems =>
      (match preResolveList fuel fetch cache elems with
       | some (elems1, cache1, n1) => some (.arr elems1, cache1, n1)
       | none => none)
    | .obj entries =>
      (match entries.lookup "$ref" with
       | some (.str r) =>
         if r ≠ ""
            && (strStartsWith r "http://" || strStartsWith r "https://") then
           let rcn := resolveExternalRef fetch cache r
           if jsTruthy rcn.1 then
             let rest := objDelete entries "$ref"
             let merged := jsSpread2 rcn.1 (.obj rest)
             (match preResolveFuel fuel fetch rcn.2.1 merged with
              | some (res, cache2, n2) => some (res, cache2, rcn.2.2 + n2)
              | none => none)
           else some (.obj [("__unresolvedRef", .str r)], rcn.2.1, rcn.2.2)
         else
           (match preResolveProps fuel fetch cache entries with
            | some (entries1, cache1, n1) => some (.obj entries1, cache1, n1)
            | none => none)
       | _ =>
         (match preResolveProps fuel fetch cache entries with
          | some (entries1, cache1, n1) => some (.obj entries1, cache1, n1)
          | none => none))
    | _ => some (schema, cache, 0)  -- non-objects are returned as-is

/-- Sequential pre-resolution of an array's elements (schema.js lines
1071-1077). -/
def preResolveList (fuel : Nat) (fetch : String → Option Json)
    (cache : SchemaCache) (elems : List Json) :
    Option (List Json × SchemaCache × Nat) :=
  match fuel with
  | 0 => none
  | fuel + 1 =>
    match elems with
    | [] => some ([], cache, 0)
    | e :: rest =>
      (match preResolveFuel fuel fetch cache e with
       | some (e1, cache1, n1) =>
         (match preResolveList fuel fetch cache1 rest with
          | some (rest1, cache2, n2) => some (e1 :: rest1, cache2, n1 + n2)
          | none => none)
       | none => none)

/-- The `Object.entries(result)` loop of `preResolveExternalRefs`
(schema.js lines 1100-1105): object- and array-valued properties are
pre-resolved in place, scalars kept. -/
def preResolveProps (fuel : Nat) (fetch : String → Option Json)
    (cache : SchemaCache) (entries : List (String × Json)) :
    Option (List (String × Json) × SchemaCache × Nat) :=
  match fuel with
  | 0 => none
  | fuel + 1 =>
    match entries with
    | [] => some ([], cache, 0)
    | (k, v) :: rest =>
      match v with
      | .obj _ | .arr _ =>
        (match preResolveFuel fuel fetch cache v with
         | some (v1, cache1, n1) =>
           (match preResolveProps fuel fetch cache1 rest with
            | some (rest1, cache2, n2) => some ((k, v1) :: rest1, cache2, n1 + n2)
            | none => none)
         | none => none)
      | _ =>
        (match preResolveProps fuel fetch cache rest with
         | some (rest1, cache1, n1) => some ((k, v) :: rest1, cache1, n1)
         | none => none)

end

/-! Claim scenarios. -/

/-- A regex-test oracle for schemas without pattern properties. -/
def regexNever : String → String → Bool := fun _ _ => false

/-- The meaningful-value-pruning scenario schema:
`{type: object, properties: {a: {type: string}, b: {type: object,
properties: {c: {type: string}}}}}`. -/
def pruneSchema : Json := .obj [
  ("type", .str "object"),
  ("properties", .obj [
    ("a", .obj [("type", .str "string")]),
    ("b", .obj [("type", .str "object"),
                ("properties", .obj [("c", .obj [("type", .str "string")])])])])]

/-- The live store of the pruning scenario: the control of root
property `a` (path `"a"`) holds the value `v`; nothing is stored under
`b`. -/
def pruneStore (v : String) : FormState := ⟨[("a", v)], [], [], []⟩

/-- C1 counterexample: with the empty string stored for `a`, `collect`
at the document root returns `{}` — not `{"a": ""}` as the claim
states.  The property `a` is collected (`coerceValue` keeps the empty
string) but then pruned by the object branch's meaningful-value test;
`b` is omitted as claimed. -/
theorem collect_empty_string_pruned_counterexample :
    collectDataFuel 9 (pruneStore "") regexNever pruneSchema pruneSchema "root"
      = some (some (.obj []))
    ∧ Json.obj [] ≠ Json.obj [("a", .str "")] := by
  refine ⟨rfl, ?_⟩
  intro h
  simp at h

/-- C1 amended: `coerceValue` does treat the empty string as a valid
string value, but the object branch prunes it like an empty array or
object, so the scenario's collect returns `{}` (with `b` omitted as
claimed); a non-empty stored value is kept. -/
theorem collect_empty_string_pruned_amended :
    coerceValue "" (.str "string") = some (.str "")
    ∧ isMeaningfulValue (.str "") = false
    ∧ collectDataFuel 9 (pruneStore "") regexNever pruneSchema pruneSchema "root"
        = some (some (.obj []))
    ∧ collectDataFuel 9 (pruneStore "x") regexNever pruneSchema pruneSchema "root"
        = some (some (.obj [("a", .str "x")])) :=
  ⟨rfl, rfl, rfl, rfl⟩

/-- The two-variant oneOf schema `{oneOf: [{const: "A"}, {const: "B"}]}`. -/
def oneOfSchemaAB : Json := .obj [("oneOf", .arr [
  .obj [("const", .str "A")], .obj [("const", .str "B")]])]

/-- The form state after the selector was switched from variant 0 to
variant 1: `renderVariant(1)` stored `selectedVariant = "1"` on the
options container and re-created the (disabled) const control at the
same path with value `"B"`. -/
def oneOfStoreB : FormState := ⟨[("root", "B")], [], [("root", 1)], []⟩

/-- C7: collection of a oneOf node delegates entirely to the active
variant (the stored selection index, defaulting to 0), so it can never
merge contributions of two variants; in the `{const:"A"}`/`{const:"B"}`
scenario, after switching the selector to index 1 collect yields
exactly `"B"`. -/
theorem collect_oneOf_uses_only_active_variant :
    (∀ (fuel : Nat) (st : FormState) (rt : String → String → Bool)
        (doc : Json) (entries : List (String × Json)) (v0 : Json)
        (vs : List Json) (path : String),
      entries.lookup "$ref" = none →
      jsTruthyO (entries.lookup "__alwaysInvalid") = false →
      entries.lookup "oneOf" = some (.arr (v0 :: vs)) →
      collectDataFuel (fuel + 1) st rt doc (.obj entries) path
        = collectDataFuel fuel st rt doc
            (selectOneOfVariant (v0 :: vs) (st.oneOfSel.lookup path)) path)
    ∧ collectDataFuel 9 oneOfStoreB regexNever oneOfSchemaAB oneOfSchemaAB "root"
        = some (some (.str "B")) := by
  constructor
  · intro fuel st rt doc entries v0 vs path h1 h2 h3
    rw [collectDataFuel]
    rw [resolveSchema_no_ref doc entries h1]
    simp [jsonLookup, jsTruthy, h2, h3]
  · rfl

/-- Witness for the oneOf claim: the general delegation applied to the
scenario schema itself. -/
theorem collect_oneOf_uses_only_active_variant_witness :
    collectDataFuel 9 oneOfStoreB regexNever oneOfSchemaAB
        (.obj [("oneOf", .arr [.obj [("const", .str "A")],
                               .obj [("const", .str "B")]])]) "root"
      = collectDataFuel 8 oneOfStoreB regexNever oneOfSchemaAB
          (selectOneOfVariant
            [.obj [("const", .str "A")], .obj [("const", .str "B")]]
            (oneOfStoreB.oneOfSel.lookup "root")) "root" :=
  collect_oneOf_uses_only_active_variant.1 8 oneOfStoreB regexNever oneOfSchemaAB
    _ _ _ "root" rfl rfl rfl

/-- The bounded integer-array schema
`{type: "array", items: {type: "integer"}, minItems: 2, maxItems: 2}`. -/
def intPairSchema : Json := .obj [
  ("type", .str "array"),
  ("items", .obj [("type", .str "integer")]),
  ("minItems", .num 2), ("maxItems", .num 2)]

/-- The form state with the two array slots holding "3" and "4". -/
def intPairStore : FormState :=
  ⟨[("root[0]", "3"), ("root[1]", "4")], [("root", 2)], [], []⟩

/-- C8: the synthesizer creates exactly 2 initial slots for the
`minItems = maxItems = 2` integer-array schema (and in general
`min(minItems, 5)` slots for a numeric `minItems`); adding a third
slot is rejected; removing below 2 is rejected; and the input
`[3, 4]` round-trips through collect unchanged and passes the
(spec-modelled, black-box) validator. -/
theorem bounded_int_array_end_to_end :
    initialItemCount intPairSchema = 2
    ∧ (∀ (es : List (String × Json)) (m : Int),
        initialItemCount (.obj (objSet es "minItems" (.num m))) = min m 5)
    ∧ arrayAddAllowed intPairSchema 2 = false
    ∧ arrayRemoveAllowed intPairSchema 2 = false
    ∧ collectDataFuel 9 intPairStore regexNever intPairSchema intPairSchema "root"
        = some (some (.arr [.num 3, .num 4]))
    ∧ specValidIntegerPair (.arr [.num 3, .num 4]) = true := by
  refine ⟨rfl, ?_, rfl, rfl, rfl, rfl⟩
  intro es m
  simp only [initialItemCount, jsonLookup, lookup_objSet_self]
  by_cases hm : m = 0
  · simp [hm]
  · simp [hm]

/-- An object schema with a declared property `a` and a pattern
property `^a$` (whose regex matches the name `a`). -/
def declPatternSchema : Json := .obj [
  ("type", .str "object"),
  ("properties", .obj [("a", .obj [("type", .str "string")])]),
  ("patternProperties", .obj [("^a$", .obj [("type", .str "string")])])]

/-- Form state with the declared property `a` holding `dv` and one
pattern entry named `a` (its value control at
`root.0_pattern_value`) holding `"patterned"`. -/
def declPatternStore (dv : String) : FormState :=
  ⟨[("a", dv), ("root.0_pattern_value", "patterned")], [], [], [("root", ["a"])]⟩

/-- The regex-test oracle for the pattern `^a$`: it matches exactly
the name `a`. -/
def regexExactA : String → String → Bool := fun p n => p == "^a$" && n == "a"

/-- C9 counterexample: with the declared property `a` collected as
`"declared"` and a pattern entry named `a` collected as `"patterned"`,
the resulting document maps `a` to the pattern entry's value — the
declared property does NOT take precedence, because the object branch
ends with `Object.assign(result, patternData)`. -/
theorem pattern_overwrites_declared_counterexample :
    collectDataFuel 9 (declPatternStore "declared") regexExactA
        declPatternSchema declPatternSchema "root"
      = some (some (.obj [("a", .str "patterned")]))
    ∧ Json.obj [("a", .str "patterned")] ≠ Json.obj [("a", .str "declared")] := by
  refine ⟨rfl, ?_⟩
  intro h
  simp at h

/-- C9 amended: whatever value the declared property `a` holds, the
pattern-derived entry of the same name wins: `Object.assign` writes
the pattern data over the declared results, so pattern-derived entries
take precedence over declared properties. -/
theorem pattern_overwrites_declared_amended :
    ∀ dv : String,
      collectDataFuel 9 (declPatternStore dv) regexExactA
          declPatternSchema declPatternSchema "root"
        = some (some (.obj [("a", .str "patterned")])) := by
  intro dv
  by_cases h : dv = ""
  · subst h; rfl
  · have hco : coerceValue dv (.str "string") = some (.str dv) := by
      simp [coerceValue, h]
    have hme : isMeaningfulValue (.str dv) = true := by
      simp [isMeaningfulValue, h]
    have hp1 : (("root." ++ natToStr 0 ++ "_pattern_value") == "a") = false := by
      decide
    have hp2 : (("root." ++ natToStr 0 ++ "_pattern_value")
        == "root.0_pattern_value") = true := by decide
    simp [collectDataFuel, collectObjectProps, collectPatternEntries,
      resolveSchema, resolveSchemaFuel, declPatternSchema, declPatternStore,
      regexExactA, jsonLookup, jsTruthy, jsTruthyO, getSchemaType, typeIs,
      patternPropsOf, spreadEntries, List.lookup, hco, hme, strTrim,
      objAssignAll, objSet, isMeaningfulValue, coerceValue, h, hp1, hp2]

/-- The control dispatch of `createControlForSchema` /
`createPrimitiveField` (schema.js lines 1420-1441 and 1608-1661),
abstracted to the kind of control rendered for a node. -/
def controlKindFor (schema : Json) : String :=
  match jsonLookup schema "oneOf" with
  | some (.arr (_ :: _)) => "oneof-selector"
  | _ =>
    let ty := getSchemaType schema
    if typeIs ty "object"
        || (¬ jsTruthyO ty && jsTruthyO (jsonLookup schema "properties")) then
      "fieldset"
    else if typeIs ty "array" then "array-items"
    else if (match jsonLookup schema "enum" with
             | some (.arr _) => true
             | _ => false) then "enum-select"
    else
      let fieldType := deducePrimitiveType schema
      if (match fieldType with | .str "boolean" => true | _ => false) then
        "boolean-select"
      else if (match fieldType with | .str "null" => true | _ => false) then
        "null-select"
      else if (match fieldType with
               | .str "number" => true
               | .str "integer" => true
               | _ => false) then "number-input"
      else "text-input"

theorem getSchemaType_objSet_arr (es : List (String × Json)) (l : List Json) :
    getSchemaType (.obj (objSet es "type" (.arr l))) = l.head? := by
  simp [getSchemaType, lookup_objSet_self]

/-- C10: for a schema whose `type` is an array of type names, only the
first element is ever used: `getSchemaType` returns it, the deduced
primitive kind, the rendered control and the collected/coerced value
are all unchanged when the remaining names are dropped. -/
theorem union_type_uses_first_element_only
    (entries : List (String × Json)) (t : Json) (rest : List Json) :
    getSchemaType (.obj (objSet entries "type" (.arr (t :: rest)))) = some t
    ∧ deducePrimitiveType (.obj (objSet entries "type" (.arr (t :: rest))))
        = deducePrimitiveType (.obj (objSet entries "type" (.arr [t])))
    ∧ controlKindFor (.obj (objSet entries "type" (.arr (t :: rest))))
        = controlKindFor (.obj (objSet entries "type" (.arr [t])))
    ∧ (entries.lookup "$ref" = none →
        ∀ (fuel : Nat) (st : FormState) (rt : String → String → Bool)
          (doc : Json) (path : String),
        collectDataFuel fuel st rt doc
            (.obj (objSet entries "type" (.arr (t :: rest)))) path
          = collectDataFuel fuel st rt doc
              (.obj (objSet entries "type" (.arr [t]))) path) := by
  have hk : ∀ (key : String), key ≠ "type" → ∀ v : Json,
      (objSet entries "type" v).lookup key = entries.lookup key :=
    fun key hkey v => lookup_objSet_ne _ _ _ _ hkey
  have hdedu :
      deducePrimitiveType (.obj (objSet entries "type" (.arr (t :: rest))))
        = deducePrimitiveType (.obj (objSet entries "type" (.arr [t]))) := by
    simp only [deducePrimitiveType, jsTruthy, getSchemaType_objSet_arr,
      List.head?, jsonLookup, hk "const" (by decide), hk "enum" (by decide)]
  refine ⟨?_, hdedu, ?_, ?_⟩
  · simp [getSchemaType_objSet_arr]
  · simp only [controlKindFor, jsonLookup, hk "oneOf" (by decide),
      hk "properties" (by decide), hk "enum" (by decide),
      getSchemaType_objSet_arr, List.head?, hdedu]
  · intro href fuel st rt doc path
    have h1 : (objSet entries "type" (.arr (t :: rest))).lookup "$ref" = none :=
      (hk "$ref" (by decide) _).trans href
    have h2 : (objSet entries "type" (.arr [t])).lookup "$ref" = none :=
      (hk "$ref" (by decide) _).trans href
    cases fuel with
    | zero => rfl
    | succ n =>
      rw [collectDataFuel, collectDataFuel,
        resolveSchema_no_ref doc _ h1, resolveSchema_no_ref doc _ h2]
      simp only [jsonLookup, jsTruthy, hk "__alwaysInvalid" (by decide),
        hk "oneOf" (by decide), hk "allOf" (by decide),
        hk "properties" (by decide), hk "patternProperties" (by decide),
        hk "items" (by decide), getSchemaType_objSet_arr, List.head?,
        patternPropsOf, arrayItemsSchema]

/-- Witness for the union-type claim: for `type: ["integer","string"]`
the deduced type is the first name and collection coerces by it. -/
theorem union_type_uses_first_element_only_witness :
    collectDataFuel 9 ⟨[("root", "5")], [], [], []⟩ regexNever (.obj [])
        (.obj (objSet [] "type" (.arr [.str "integer", .str "string"]))) "root"
      = collectDataFuel 9 ⟨[("root", "5")], [], [], []⟩ regexNever (.obj [])
          (.obj (objSet [] "type" (.arr [.str "integer"]))) "root" :=
  (union_type_uses_first_element_only [] (.str "integer") [.str "string"]).2.2.2
    rfl 9 ⟨[("root", "5")], [], [], []⟩ regexNever (.obj []) "root"

/-- C2 evaluation at the failing input (array of arrays): after
removing index 1 of a 3-item array at path `root`, the remaining items
(formerly at indices 0 and 2) are renumbered.  The former item 2 gets
wrapper path `root[1]` and its value-control path `root[2][0]` is
rewritten to `root[1][0]`, but its nested array container's
`data-array-path`, which is exactly the old item path `root[2]`,
is left unchanged — a stale path under the old prefix, where the
claim (and the renumbering invariant of the design) requires zero. -/
theorem renumber_leaves_stale_container_path :
    renumberArrayItems "root"
        [⟨"root[0]", ["root[0][0]"], ["root[0]"], []⟩,
         ⟨"root[2]", ["root[2][0]"], ["root[2]"], []⟩]
      = [⟨"root[0]", ["root[0][0]"], ["root[0]"], []⟩,
         ⟨"root[1]", ["root[1][0]"], ["root[2]"], []⟩]
    ∧ (renumberArrayItems "root"
        [⟨"root[0]", ["root[0][0]"], ["root[0]"], []⟩,
         ⟨"root[2]", ["root[2][0]"], ["root[2]"], []⟩]).foldl
          (fun acc item => acc ++ item.arrayPaths) []
        = ["root[0]", "root[2]"] :=
  ⟨rfl, rfl⟩

/-- The pre-resolution scenario schema: two external refs sharing the
base URI `https://x/schema.json` with different fragments. -/
def twoExternalRefs : Json := .obj [
  ("a", .obj [("$ref", .str "https://x/schema.json#/$defs/Name")]),
  ("b", .obj [("$ref", .str "https://x/schema.json#/other")])]

/-- A fetch oracle whose every request fails (network error, non-2xx
or parse error — all are caught identically). -/
def fetchAlwaysFails : String → Option Json := fun _ => none

/-- C6: when the external fetch fails, pre-resolution caches the
failure sentinel under the fragment-stripped base URI, issues exactly
one fetch for the two references to the same base (the second one
reads the sentinel), and both references resolve to the
`__unresolvedRef` marker.  The second and third conjuncts state the
cache behaviour in general: a cached sentinel is answered with JS
`null` and no fetch and no cache change, and a fresh failing fetch
stores the sentinel under the base URI. -/
theorem external_ref_failure_cached_not_retried :
    preResolveFuel 9 fetchAlwaysFails [] twoExternalRefs
      = some (.obj [
          ("a", .obj [("__unresolvedRef", .str "https://x/schema.json#/$defs/Name")]),
          ("b", .obj [("__unresolvedRef", .str "https://x/schema.json#/other")])],
        [("https://x/schema.json", none)], 1)
    ∧ (∀ (fetch : String → Option Json) (cache : SchemaCache)
          (ref base : String) (frag : Option String),
        ref ≠ "" →
        (strStartsWith ref "http://" || strStartsWith ref "https://") = true →
        splitHash ref = (base, frag) →
        cacheGet cache base = some none →
        resolveExternalRef fetch cache ref = (Json.null, cache, 0))
    ∧ (∀ (fetch : String → Option Json) (cache : SchemaCache)
          (ref base : String) (frag : Option String),
        ref ≠ "" →
        (strStartsWith ref "http://" || strStartsWith ref "https://") = true →
        splitHash ref = (base, frag) →
        cacheGet cache base = none →
        fetch base = none →
        resolveExternalRef fetch cache ref
          = (Json.null, cacheSet cache base none, 1)) := by
  refine ⟨rfl, ?_, ?_⟩
  · intro fetch cache ref base frag h1 h2 h3 h4
    simp [resolveExternalRef, h1, h2, h3, h4]
  · intro fetch cache ref base frag h1 h2 h3 h4 h5
    simp [resolveExternalRef, h1, h2, h3, h4, h5]

/-- Witness for the external-ref claim: the cached sentinel left by
the failed scenario fetch answers a later reference to the same base
URI without a new fetch, and a fresh failing fetch caches the
sentinel. -/
theorem external_ref_failure_cached_not_retried_witness :
    resolveExternalRef fetchAlwaysFails [("https://x/schema.json", none)]
        "https://x/schema.json#/third"
      = (Json.null, [("https://x/schema.json", none)], 0)
    ∧ resolveExternalRef fetchAlwaysFails [] "https://x/schema.json#/$defs/Name"
      = (Json.null, cacheSet [] "https://x/schema.json" none, 1) :=
  ⟨external_ref_failure_cached_not_retried.2.1 fetchAlwaysFails
      [("https://x/schema.json", none)] "https://x/schema.json#/third"
      "https://x/schema.json" (some "/third") (by decide) (by decide) rfl rfl,
   external_ref_failure_cached_not_retried.2.2 fetchAlwaysFails []
      "https://x/schema.json#/$defs/Name" "https://x/schema.json"
      (some "/$defs/Name") (by decide) (by decide) rfl rfl rfl⟩

/-! Lemmas for the `allOf` associativity claim. -/

/-- Keys of an entry list. -/
def entryKeys (l : List (String × Json)) : List String := l.map Prod.fst

/-- An entry list with pairwise-distinct keys, as every object built
by the embedded code has. -/
def uniqueKeys (l : List (String × Json)) : Prop := (entryKeys l).Nodup

theorem entryKeys_objSet (l : List (String × Json)) (k : String) (v : Json) :
    entryKeys (objSet l k v)
      = if k ∈ entryKeys l then entryKeys l else entryKeys l ++ [k] := by
  unfold entryKeys
  induction l with
  | nil => simp [objSet]
  | cons e rest ih =>
    obtain ⟨k1, w⟩ := e
    by_cases h : k1 = k
    · subst h
      simp [objSet]
    · simp only [objSet, if_neg h, List.map_cons]
      rw [ih]
      by_cases hm : k ∈ List.map Prod.fst rest
      · simp [hm, Ne.symm h]
      · simp [hm, Ne.symm h]

theorem objSet_uniq (l : List (String × Json)) (k : String) (v : Json)
    (h : uniqueKeys l) : uniqueKeys (objSet l k v) := by
  unfold uniqueKeys at *
  rw [entryKeys_objSet]
  by_cases hm : k ∈ entryKeys l
  · simpa [hm] using h
  · simp only [hm, if_false]
    exact List.Nodup.append h (List.nodup_singleton k)
      (by simpa [List.disjoint_singleton] using hm)

theorem lookup_eq_none_of_not_mem_keys (l : List (String × Json)) (k : String)
    (h : k ∉ entryKeys l) : l.lookup k = none := by
  induction l with
  | nil => rfl
  | cons e rest ih =>
    simp only [entryKeys, List.map_cons, List.mem_cons, not_or] at h
    have : (k == e.1) = false := by simp [h.1]
    simpa [List.lookup, this] using ih (by simpa [entryKeys] using h.2)

theorem objSet_lookup_congr (l l' : List (String × Json))
    (h : ∀ k, l.lookup k = l'.lookup k) (key : String) (v : Json) :
    ∀ k, (objSet l key v).lookup k = (objSet l' key v).lookup k := by
  intro k
  by_cases hk : k = key
  · subst hk; rw [lookup_objSet_self, lookup_objSet_self]
  · rw [lookup_objSet_ne _ _ _ _ hk, lookup_objSet_ne _ _ _ _ hk]
    exact h k

/-- A fold preserves any property its step preserves. -/
theorem foldl_preserve {α β : Type} (P : α → Prop) (f : α → β → α)
    (hf : ∀ a b, P a → P (f a b)) :
    ∀ (es : List β) (acc : α), P acc → P (es.foldl f acc) := by
  intro es
  induction es with
  | nil => intro acc h; exact h
  | cons e rest ih => intro acc h; exact ih (f acc e) (hf acc e h)

theorem copyFold_snd (es : List (String × Json))
    (acc : List (String × Json) × List Json) :
    (es.foldl mergeCopyStep acc).2 = acc.2 := by
  induction es generalizing acc with
  | nil => rfl
  | cons e rest ih =>
    rw [List.foldl_cons, ih]
    unfold mergeCopyStep
    by_cases h : e.1 = "properties" ∨ e.1 = "required" <;> simp [h]

theorem copyFold_lookup_propreq (es : List (String × Json))
    (acc : List (String × Json) × List Json) (k : String)
    (hk : k = "properties" ∨ k = "required") :
    (es.foldl mergeCopyStep acc).1.lookup k = acc.1.lookup k := by
  induction es generalizing acc with
  | nil => rfl
  | cons e rest ih =>
    rw [List.foldl_cons, ih]
    unfold mergeCopyStep
    by_cases h : e.1 = "properties" ∨ e.1 = "required"
    · simp [h]
    · have : k ≠ e.1 := by
        rcases hk with hk | hk <;> subst hk <;> tauto
      simp [h, lookup_objSet_ne _ _ _ _ this]

theorem copyFold_lookup_none (es : List (String × Json))
    (acc : List (String × Json) × List Json) (k : String)
    (h : es.lookup k = none) :
    (es.foldl mergeCopyStep acc).1.lookup k = acc.1.lookup k := by
  induction es generalizing acc with
  | nil => rfl
  | cons e rest ih =>
    obtain ⟨k1, v⟩ := e
    have hne : (k == k1) = false := by
      by_contra hc
      simp only [Bool.not_eq_false, beq_iff_eq] at hc
      simp [List.lookup, hc] at h
    have hk1 : k ≠ k1 := by simpa using hne
    have hrest : rest.lookup k = none := by
      simpa [List.lookup, hne] using h
    rw [List.foldl_cons, ih _ hrest]
    unfold mergeCopyStep
    by_cases hc : k1 = "properties" ∨ k1 = "required"
    · simp [hc]
    · simp [hc, lookup_objSet_ne _ _ _ _ hk1]

theorem copyFold_lookup_found (es : List (String × Json))
    (hu : uniqueKeys es) (k : String) (v : Json) (h : es.lookup k = some v)
    (h1 : k ≠ "properties") (h2 : k ≠ "required")
    (acc : List (String × Json) × List Json) :
    (es.foldl mergeCopyStep acc).1.lookup k = some v := by
  induction es generalizing acc with
  | nil => simp [List.lookup] at h
  | cons e rest ih =>
    obtain ⟨k1, w⟩ := e
    by_cases hk : k = k1
    · subst hk
      have hv : w = v := by simpa [List.lookup] using h
      subst hv
      have hnodup : (k :: List.map Prod.fst rest).Nodup := by
        simpa [uniqueKeys, entryKeys] using hu
      have hnotin : k ∉ entryKeys rest := by
        simpa [entryKeys] using (List.nodup_cons.mp hnodup).1
      have hrest : rest.lookup k = none :=
        lookup_eq_none_of_not_mem_keys _ _ hnotin
      rw [List.foldl_cons, copyFold_lookup_none _ _ _ hrest]
      unfold mergeCopyStep
      have hc : ¬ (k = "properties" ∨ k = "required") := by tauto
      simp [hc, lookup_objSet_self]
    · have hbeq : (k == k1) = false := by simp [hk]
      have hrest : rest.lookup k = some v := by simpa [List.lookup, hbeq] using h
      have hnodup : (k1 :: List.map Prod.fst rest).Nodup := by
        simpa [uniqueKeys, entryKeys] using hu
      have hurest : uniqueKeys rest := by
        simpa [uniqueKeys, entryKeys] using (List.nodup_cons.mp hnodup).2
      rw [List.foldl_cons]
      exact ih hurest hrest _

/-- Pairwise distinctness under `jsonBeq`, the invariant of the
`requiredFields` set contents. -/
def noDupBeq (l : List Json) : Prop :=
  l.Pairwise (fun a b => jsonBeq a b = false)

theorem requiredAdd_noDupBeq (l : List Json) (x : Json) (h : noDupBeq l) :
    noDupBeq (requiredAdd l x) := by
  unfold requiredAdd
  by_cases hm : l.any (fun y => jsonBeq y x) = true
  · simpa [hm] using h
  · rw [if_neg hm]
    unfold noDupBeq at *
    rw [List.pairwise_append]
    refine ⟨h, List.pairwise_singleton _ _, ?_⟩
    intro a ha b hb
    simp only [List.mem_singleton] at hb
    subst hb
    by_contra hc
    simp only [Bool.not_eq_false] at hc
    exact hm (List.any_eq_true.mpr ⟨a, ha, hc⟩)

theorem foldl_requiredAdd_noDupBeq (xs : List Json) (l : List Json)
    (h : noDupBeq l) : noDupBeq (xs.foldl requiredAdd l) :=
  foldl_preserve noDupBeq requiredAdd requiredAdd_noDupBeq xs l h

/-- Re-inserting an already-deduplicated list into the set is the
identity: this is how `mergeAllOfSchemas([M, C])` recovers exactly
`M.required` before adding `C`'s entries. -/
theorem foldl_requiredAdd_reinsert (l acc : List Json)
    (h : noDupBeq (acc ++ l)) : l.foldl requiredAdd acc = acc ++ l := by
  induction l generalizing acc with
  | nil => simp
  | cons x rest ih =>
    have hfresh : ∀ a ∈ acc, jsonBeq a x = false := by
      intro a ha
      have hp := (List.pairwise_append.mp h).2.2
      exact hp a ha x (by simp)
    have hstep : requiredAdd acc x = acc ++ [x] := by
      unfold requiredAdd
      have hnone : ¬ (acc.any (fun y => jsonBeq y x) = true) := by
        rw [List.any_eq_true]
        rintro ⟨a, ha, hc⟩
        rw [hfresh a ha] at hc
        exact Bool.false_ne_true hc
      simp [hnone]
    have hih := ih (acc ++ [x]) (by simpa using h)
    rw [List.foldl_cons, hstep, hih]
    simp

theorem entryKeys_append (a b : List (String × Json)) :
    entryKeys (a ++ b) = entryKeys a ++ entryKeys b := by
  simp [entryKeys]

theorem lookup_none_objSet_append (l : List (String × Json)) (k : String)
    (v : Json) (h : l.lookup k = none) : objSet l k v = l ++ [(k, v)] := by
  induction l with
  | nil => rfl
  | cons e rest ih =>
    obtain ⟨k1, w⟩ := e
    have hne : (k == k1) = false := by
      by_contra hc
      simp only [Bool.not_eq_false, beq_iff_eq] at hc
      simp [List.lookup, hc] at h
    have hk1 : k1 ≠ k := fun hc => by simp [hc] at hne
    have hrest : rest.lookup k = none := by simpa [List.lookup, hne] using h
    simp [objSet, hk1, ih hrest]

theorem dmpStep_uniq (R : Json → Json → Json)
    (r : List (String × Json)) (e : String × Json) (h : uniqueKeys r) :
    uniqueKeys (dmpStep R r e) := by
  unfold dmpStep
  dsimp only
  split
  · split
    · exact objSet_uniq _ _ _ h
    · exact objSet_uniq _ _ _ h
  · exact objSet_uniq _ _ _ h

theorem objAssignAll_uniq (dst src : List (String × Json))
    (h : uniqueKeys dst) : uniqueKeys (objAssignAll dst src) := by
  unfold objAssignAll
  exact foldl_preserve uniqueKeys _ (fun a b hb => objSet_uniq _ _ _ hb) _ _ h

theorem dmpFold_fresh (R : Json → Json → Json) (es acc : List (String × Json))
    (h : (entryKeys acc ++ entryKeys es).Nodup) :
    es.foldl (dmpStep R) acc = acc ++ es := by
  induction es generalizing acc with
  | nil => simp
  | cons e rest ih =>
    obtain ⟨k, v⟩ := e
    have hkeys : entryKeys acc ++ entryKeys ((k, v) :: rest)
        = (entryKeys acc ++ [k]) ++ entryKeys rest := by
      simp [entryKeys]
    rw [hkeys] at h
    have hknotin : k ∉ entryKeys acc := by
      have h1 := (List.nodup_append.mp h).1
      have h2 : (entryKeys acc).Disjoint [k] := (List.nodup_append.mp h1).2.2
      intro hc
      exact h2 hc (by simp)
    have hlook : acc.lookup k = none :=
      lookup_eq_none_of_not_mem_keys _ _ hknotin
    have hstep : dmpStep R acc (k, v) = acc ++ [(k, v)] := by
      unfold dmpStep
      dsimp only
      rw [hlook]
      simp only [Bool.false_and, if_false]
      exact lookup_none_objSet_append _ _ _ hlook
    rw [List.foldl_cons, hstep,
      ih (acc ++ [(k, v)]) (by simpa [entryKeys_append, entryKeys] using h)]
    simp

theorem dmp_empty (pE : List (String × Json)) (hu : uniqueKeys pE) (f : Nat) :
    deepMergePropsFuel (f + 1) (.obj []) (.obj pE) = .obj pE := by
  show Json.obj (pE.foldl (dmpStep _) (spreadEntries (.obj []))) = _
  rw [show spreadEntries (Json.obj []) = [] from rfl]
  rw [dmpFold_fresh _ _ _ (by simpa [entryKeys] using hu)]
  simp

theorem dmp_obj_uniq (f : Nat) (tE : List (String × Json)) (s : Json)
    (hu : uniqueKeys tE) :
    ∃ oE, deepMergePropsFuel f (.obj tE) s = .obj oE ∧ uniqueKeys oE := by
  cases f with
  | zero => exact ⟨tE, rfl, hu⟩
  | succ n =>
    cases s with
    | obj srcE =>
      refine ⟨_, rfl, ?_⟩
      exact foldl_preserve uniqueKeys _ (fun a b hb => dmpStep_uniq _ _ _ hb)
        srcE tE hu
    | arr l =>
      exact ⟨_, rfl, objAssignAll_uniq _ _ hu⟩
    | null => exact ⟨tE, rfl, hu⟩
    | bool b => exact ⟨tE, rfl, hu⟩
    | num n => exact ⟨tE, rfl, hu⟩
    | str t => exact ⟨tE, rfl, hu⟩

theorem mergeCopyStep_uniq (a : List (String × Json) × List Json)
    (e : String × Json) (h : uniqueKeys a.1) : uniqueKeys (mergeCopyStep a e).1 := by
  unfold mergeCopyStep
  split
  · exact h
  · exact objSet_uniq _ _ _ h

theorem mergeAssignStep_uniq (a : List (String × Json) × List Json)
    (e : String × Json) (h : uniqueKeys a.1) :
    uniqueKeys (mergeAssignStep a e).1 :=
  objSet_uniq _ _ _ h

/-- `mergeAllOfStep` keeps merged-object keys pairwise distinct. -/
theorem mergeAllOfStep_uniq (doc : Json) (acc : List (String × Json) × List Json)
    (s : Json) (h : uniqueKeys acc.1) : uniqueKeys (mergeAllOfStep doc acc s).1 := by
  unfold mergeAllOfStep
  cases resolveSchema doc s with
  | obj rE =>
    dsimp only
    refine foldl_preserve (fun (a : List (String × Json) × List Json) => uniqueKeys a.1) _ mergeCopyStep_uniq _ _ ?_
    split
    all_goals split
    all_goals first
      | exact objSet_uniq _ _ _ h
      | exact h
  | arr l =>
    exact foldl_preserve (fun (a : List (String × Json) × List Json) => uniqueKeys a.1) _ mergeAssignStep_uniq _ _ h
  | null => exact h
  | bool b => exact h
  | num n => exact h
  | str t => exact h

/-- The `properties` half of a `mergeAllOfStep` on the accumulator. -/
def mergePropsUpdate (acc : List (String × Json) × List Json)
    (sE : List (String × Json)) : List (String × Json) × List Json :=
  if jsTruthyO (sE.lookup "properties") then
    (objSet acc.1 "properties"
      (deepMergeProperties
        (match acc.1.lookup "properties" with
         | some v => if jsTruthy v then v else Json.obj []
         | none => Json.obj [])
        ((sE.lookup "properties").getD Json.null)), acc.2)
  else acc

/-- The `required` half of a `mergeAllOfStep` on the accumulator. -/
def mergeReqUpdate (acc : List (String × Json) × List Json)
    (sE : List (String × Json)) : List (String × Json) × List Json :=
  match sE.lookup "required" with
  | some (.arr reqs) => (acc.1, reqs.foldl requiredAdd acc.2)
  | _ => acc

theorem mergeAllOfStep_obj_eq (doc : Json)
    (acc : List (String × Json) × List Json) (sE : List (String × Json))
    (h : sE.lookup "$ref" = none) :
    mergeAllOfStep doc acc (.obj sE)
      = sE.foldl mergeCopyStep (mergeReqUpdate (mergePropsUpdate acc sE) sE) := by
  unfold mergeAllOfStep mergePropsUpdate mergeReqUpdate
  rw [resolveSchema_no_ref doc sE h]

theorem mergeAllOfStep_obj_snd (doc : Json)
    (acc : List (String × Json) × List Json) (sE : List (String × Json))
    (h : sE.lookup "$ref" = none) :
    (mergeAllOfStep doc acc (.obj sE)).2
      = match sE.lookup "required" with
        | some (.arr reqs) => reqs.foldl requiredAdd acc.2
        | _ => acc.2 := by
  rw [mergeAllOfStep_obj_eq doc acc sE h, copyFold_snd]
  unfold mergeReqUpdate mergePropsUpdate
  split <;> split <;> rfl

theorem mergePropsUpdate_snd (acc : List (String × Json) × List Json)
    (sE : List (String × Json)) : (mergePropsUpdate acc sE).2 = acc.2 := by
  unfold mergePropsUpdate
  split <;> rfl

theorem mergeReqUpdate_fst (acc : List (String × Json) × List Json)
    (sE : List (String × Json)) : (mergeReqUpdate acc sE).1 = acc.1 := by
  unfold mergeReqUpdate
  split <;> rfl

theorem mergeAllOfStep_obj_lookup_props (doc : Json)
    (acc : List (String × Json) × List Json) (sE : List (String × Json))
    (h : sE.lookup "$ref" = none) :
    (mergeAllOfStep doc acc (.obj sE)).1.lookup "properties"
      = if jsTruthyO (sE.lookup "properties") then
          some (deepMergeProperties
            (match acc.1.lookup "properties" with
             | some v => if jsTruthy v then v else Json.obj []
             | none => Json.obj [])
            ((sE.lookup "properties").getD Json.null))
        else acc.1.lookup "properties" := by
  rw [mergeAllOfStep_obj_eq doc acc sE h,
    copyFold_lookup_propreq _ _ _ (Or.inl rfl), mergeReqUpdate_fst]
  unfold mergePropsUpdate
  split
  · dsimp only
    rw [lookup_objSet_self]
  · rfl

theorem mergeAllOfStep_obj_lookup_req (doc : Json)
    (acc : List (String × Json) × List Json) (sE : List (String × Json))
    (h : sE.lookup "$ref" = none) :
    (mergeAllOfStep doc acc (.obj sE)).1.lookup "required"
      = acc.1.lookup "required" := by
  rw [mergeAllOfStep_obj_eq doc acc sE h,
    copyFold_lookup_propreq _ _ _ (Or.inr rfl), mergeReqUpdate_fst]
  unfold mergePropsUpdate
  split
  · dsimp only
    rw [lookup_objSet_ne _ _ _ _ (by decide)]
  · rfl

theorem mergeAllOfStep_obj_lookup_other (doc : Json)
    (acc : List (String × Json) × List Json) (sE : List (String × Json))
    (h : sE.lookup "$ref" = none) (hu : uniqueKeys sE) (k : String)
    (h1 : k ≠ "properties") (h2 : k ≠ "required") :
    (mergeAllOfStep doc acc (.obj sE)).1.lookup k
      = match sE.lookup k with
        | some v => some v
        | none => acc.1.lookup k := by
  rw [mergeAllOfStep_obj_eq doc acc sE h]
  cases hk : sE.lookup k with
  | some v => exact copyFold_lookup_found sE hu k v hk h1 h2 _
  | none =>
    rw [copyFold_lookup_none _ _ _ hk, mergeReqUpdate_fst]
    unfold mergePropsUpdate
    split
    · dsimp only
      rw [lookup_objSet_ne _ _ _ _ h1]
    · rfl

theorem mergeReqUpdate_snd_eq (acc : List (String × Json) × List Json)
    (sE : List (String × Json)) :
    (mergeReqUpdate acc sE).2
      = match sE.lookup "required" with
        | some (.arr reqs) => reqs.foldl requiredAdd acc.2
        | _ => acc.2 := by
  unfold mergeReqUpdate
  cases hq : sE.lookup "required" with
  | none => rfl
  | some v => cases v <;> rfl

theorem copyFold_congr (es : List (String × Json))
    (a b : List (String × Json) × List Json)
    (h1 : ∀ k, a.1.lookup k = b.1.lookup k) (h2 : a.2 = b.2) :
    (∀ k, (es.foldl mergeCopyStep a).1.lookup k
        = (es.foldl mergeCopyStep b).1.lookup k)
    ∧ (es.foldl mergeCopyStep a).2 = (es.foldl mergeCopyStep b).2 := by
  induction es generalizing a b with
  | nil => exact ⟨h1, h2⟩
  | cons e rest ih =>
    rw [List.foldl_cons, List.foldl_cons]
    apply ih
    · unfold mergeCopyStep
      split
      · exact h1
      · exact objSet_lookup_congr _ _ h1 _ _
    · unfold mergeCopyStep
      split
      · exact h2
      · exact h2

theorem mergeAllOfStep_obj_congr (doc : Json) (sE : List (String × Json))
    (h : sE.lookup "$ref" = none) (a b : List (String × Json) × List Json)
    (h1 : ∀ k, a.1.lookup k = b.1.lookup k) (h2 : a.2 = b.2) :
    (∀ k, (mergeAllOfStep doc a (.obj sE)).1.lookup k
        = (mergeAllOfStep doc b (.obj sE)).1.lookup k)
    ∧ (mergeAllOfStep doc a (.obj sE)).2 = (mergeAllOfStep doc b (.obj sE)).2 := by
  rw [mergeAllOfStep_obj_eq doc a sE h, mergeAllOfStep_obj_eq doc b sE h]
  have hp1 : ∀ k, (mergePropsUpdate a sE).1.lookup k
      = (mergePropsUpdate b sE).1.lookup k := by
    intro k
    unfold mergePropsUpdate
    split
    · dsimp only
      rw [h1 "properties"]
      exact objSet_lookup_congr _ _ h1 _ _ k
    · exact h1 k
  apply copyFold_congr
  · intro k
    rw [mergeReqUpdate_fst, mergeReqUpdate_fst]
    exact hp1 k
  · rw [mergeReqUpdate_snd_eq, mergeReqUpdate_snd_eq,
      mergePropsUpdate_snd, mergePropsUpdate_snd, h2]

/-- The invariant that a merged accumulator's `properties`, when
present, is an object with pairwise-distinct keys (as every
`deepMergeProperties` output on such a base is). -/
def propsInv (acc : List (String × Json) × List Json) : Prop :=
  acc.1.lookup "properties" = none
  ∨ ∃ pE, acc.1.lookup "properties" = some (.obj pE) ∧ uniqueKeys pE

theorem deepMergeProperties_obj_uniq (tE : List (String × Json)) (s : Json)
    (hu : uniqueKeys tE) :
    ∃ oE, deepMergeProperties (.obj tE) s = .obj oE ∧ uniqueKeys oE :=
  dmp_obj_uniq _ _ _ hu

theorem mergeAllOfStep_obj_propsInv (doc : Json)
    (acc : List (String × Json) × List Json) (sE : List (String × Json))
    (h : sE.lookup "$ref" = none) (hinv : propsInv acc) :
    propsInv (mergeAllOfStep doc acc (.obj sE)) := by
  unfold propsInv
  rw [mergeAllOfStep_obj_lookup_props doc acc sE h]
  by_cases ht : jsTruthyO (sE.lookup "properties") = true
  · rw [if_pos ht]
    rcases hinv with hnone | ⟨pE, hpe, hupe⟩
    · rw [hnone]
      obtain ⟨oE, ho, huo⟩ :=
        deepMergeProperties_obj_uniq [] ((sE.lookup "properties").getD Json.null)
          (by simp [uniqueKeys, entryKeys])
      right
      exact ⟨oE, by rw [ho], huo⟩
    · rw [hpe]
      have hred : (match some (Json.obj pE) with
          | some v => if jsTruthy v then v else Json.obj []
          | none => Json.obj []) = Json.obj pE := rfl
      rw [hred]
      obtain ⟨oE, ho, huo⟩ :=
        deepMergeProperties_obj_uniq pE ((sE.lookup "properties").getD Json.null)
          hupe
      right
      exact ⟨oE, by rw [ho], huo⟩
  · rw [if_neg ht]
    exact hinv

theorem mergeAllOfStep_obj_snd_noDup (doc : Json)
    (acc : List (String × Json) × List Json) (sE : List (String × Json))
    (h : sE.lookup "$ref" = none) (hd : noDupBeq acc.2) :
    noDupBeq (mergeAllOfStep doc acc (.obj sE)).2 := by
  rw [mergeAllOfStep_obj_snd doc acc sE h]
  cases hq : sE.lookup "required" with
  | none => exact hd
  | some v =>
    cases v with
    | arr reqs => exact foldl_requiredAdd_noDupBeq reqs acc.2 hd
    | null => exact hd
    | bool b => exact hd
    | num n => exact hd
    | str t => exact hd
    | obj o => exact hd

/-- The crux of `allOf` associativity: running one `mergeAllOfStep`
from the empty accumulator on the finalized output of a previous merge
recovers exactly that merge's accumulator — its `properties` are
deep-merged into the empty base (an identity), its `required` array is
re-inserted into a fresh set (an identity on deduplicated lists), and
its other keywords are copied verbatim. -/
theorem step_init_on_finalized (doc : Json) (SS1 : List (String × Json))
    (SSreq : List Json) (hU : uniqueKeys SS1) (hRef : SS1.lookup "$ref" = none)
    (hReq : SS1.lookup "required" = none)
    (hProp : SS1.lookup "properties" = none
      ∨ ∃ pE, SS1.lookup "properties" = some (.obj pE) ∧ uniqueKeys pE)
    (hND : noDupBeq SSreq) :
    (∀ k, (mergeAllOfStep doc ([], [])
        (.obj (if SSreq.length > 0 then objSet SS1 "required" (.arr SSreq)
               else SS1))).1.lookup k = SS1.lookup k)
    ∧ (mergeAllOfStep doc ([], [])
        (.obj (if SSreq.length > 0 then objSet SS1 "required" (.arr SSreq)
               else SS1))).2 = SSreq := by
  set mE := if SSreq.length > 0 then objSet SS1 "required" (.arr SSreq)
    else SS1 with hmE
  have mRef : mE.lookup "$ref" = none := by
    rw [hmE]; split
    · rw [lookup_objSet_ne _ _ _ _ (by decide)]; exact hRef
    · exact hRef
  have mReq : mE.lookup "required"
      = if SSreq.length > 0 then some (.arr SSreq) else none := by
    rw [hmE]; split
    · rw [lookup_objSet_self]
    · exact hReq
  have mProps : mE.lookup "properties" = SS1.lookup "properties" := by
    rw [hmE]; split
    · rw [lookup_objSet_ne _ _ _ _ (by decide)]
    · rfl
  have mOther : ∀ k, k ≠ "required" → mE.lookup k = SS1.lookup k := by
    intro k hk
    rw [hmE]; split
    · rw [lookup_objSet_ne _ _ _ _ hk]
    · rfl
  have mU : uniqueKeys mE := by
    rw [hmE]; split
    · exact objSet_uniq _ _ _ hU
    · exact hU
  constructor
  · intro k
    by_cases hkp : k = "properties"
    · subst hkp
      rw [mergeAllOfStep_obj_lookup_props doc ([], []) mE mRef]
      rw [mProps]
      rcases hProp with hnone | ⟨pE, hpe, hupe⟩
      · rw [hnone]
        rfl
      · rw [hpe]
        have hred : jsTruthyO (some (Json.obj pE)) = true := rfl
        rw [hred, if_pos rfl]
        have hfuel : jsonFuelSize (.obj pE) = jsonObjFuelSize pE + 1 := by
          simp [jsonFuelSize, Nat.add_comm]
        have hdmp : deepMergeProperties (.obj []) (.obj pE) = .obj pE := by
          unfold deepMergeProperties
          rw [hfuel]
          exact dmp_empty pE hupe _
        have hbase : (match ([] : List (String × Json)).lookup "properties" with
            | some v => if jsTruthy v then v else Json.obj []
            | none => Json.obj []) = Json.obj [] := rfl
        rw [hbase]
        rw [show ((some (Json.obj pE)).getD Json.null) = Json.obj pE from rfl]
        rw [hdmp]
    · by_cases hkr : k = "required"
      · subst hkr
        rw [mergeAllOfStep_obj_lookup_req doc ([], []) mE mRef]
        exact hReq.symm
      · rw [mergeAllOfStep_obj_lookup_other doc ([], []) mE mRef mU k hkp hkr]
        rw [mOther k hkr]
        cases hsk : SS1.lookup k with
        | some v => rfl
        | none => rfl
  · rw [mergeAllOfStep_obj_snd doc ([], []) mE mRef, mReq]
    by_cases hl : SSreq.length > 0
    · rw [if_pos hl]
      exact foldl_requiredAdd_reinsert SSreq [] (by simpa using hND)
    · rw [if_neg hl]
      have : SSreq = [] := by
        cases SSreq with
        | nil => rfl
        | cons x xs => simp at hl
      rw [this]

/-- The final packaging step of `mergeAllOfSchemas` (schema.js lines
1601-1605): the accumulated `required` set is written back into the
merged object when non-empty. -/
def finalizeMerge (acc : List (String × Json) × List Json) : Json :=
  if acc.2.length > 0 then .obj (objSet acc.1 "required" (.arr acc.2))
  else .obj acc.1

theorem mergeAllOfSchemas_two (doc s t : Json) :
    mergeAllOfSchemas doc [s, t]
      = finalizeMerge (mergeAllOfStep doc (mergeAllOfStep doc ([], []) s) t) :=
  rfl

theorem mergeAllOfSchemas_three (doc a b c : Json) :
    mergeAllOfSchemas doc [a, b, c]
      = finalizeMerge (mergeAllOfStep doc
          (mergeAllOfStep doc (mergeAllOfStep doc ([], []) a) b) c) :=
  rfl

theorem finalizeMerge_obj (acc : List (String × Json) × List Json) :
    finalizeMerge acc
      = .obj (if acc.2.length > 0 then objSet acc.1 "required" (.arr acc.2)
              else acc.1) := by
  unfold finalizeMerge
  split <;> simp_all

theorem finalizeMerge_lookup_congr (a b : List (String × Json) × List Json)
    (h1 : ∀ k, a.1.lookup k = b.1.lookup k) (h2 : a.2 = b.2) (k : String) :
    jsonLookup (finalizeMerge a) k = jsonLookup (finalizeMerge b) k := by
  unfold finalizeMerge
  rw [← h2]
  split
  · show (objSet a.1 "required" (.arr a.2)).lookup k
      = (objSet b.1 "required" (.arr a.2)).lookup k
    by_cases hk : k = "required"
    · subst hk
      rw [lookup_objSet_self, lookup_objSet_self]
    · rw [lookup_objSet_ne _ _ _ _ hk, lookup_objSet_ne _ _ _ _ hk]
      exact h1 k
  · exact h1 k

theorem finalizeMerge_lookup_other (acc : List (String × Json) × List Json)
    (k : String) (hk : k ≠ "required") :
    jsonLookup (finalizeMerge acc) k = acc.1.lookup k := by
  unfold finalizeMerge
  split
  · show (objSet acc.1 "required" (.arr acc.2)).lookup k = acc.1.lookup k
    rw [lookup_objSet_ne _ _ _ _ hk]
  · rfl

theorem mergeAllOfStep_obj_ref_none (doc : Json)
    (acc : List (String × Json) × List Json) (sE : List (String × Json))
    (h : sE.lookup "$ref" = none) (hu : uniqueKeys sE)
    (hacc : acc.1.lookup "$ref" = none) :
    (mergeAllOfStep doc acc (.obj sE)).1.lookup "$ref" = none := by
  rw [mergeAllOfStep_obj_lookup_other doc acc sE h hu "$ref"
    (by decide) (by decide), h]
  exact hacc

/-- C5: the `allOf` merge of `mergeAllOfSchemas` is associative for
`properties` and `required` — merging `[A, B]` and then merging the
result with `C` produces, key for key, the same object as merging
`[A, B, C]` directly (properties deep-merged, required arrays unioned
as a set) — and is order-sensitive only for scalar keywords: any other
keyword present in `C` takes `C`'s (the last schema's) value in the
direct merge, whatever `A` and `B` carry.  Stated for `$ref`-free
object schemas with distinct keys, as every schema literal in scope
is. -/
theorem allOf_merge_associative (doc : Json) (aE bE cE : List (String × Json))
    (haR : aE.lookup "$ref" = none) (hbR : bE.lookup "$ref" = none)
    (hcR : cE.lookup "$ref" = none)
    (haU : uniqueKeys aE) (hbU : uniqueKeys bE) (hcU : uniqueKeys cE) :
    (∀ k, jsonLookup (mergeAllOfSchemas doc
          [mergeAllOfSchemas doc [.obj aE, .obj bE], .obj cE]) k
        = jsonLookup (mergeAllOfSchemas doc [.obj aE, .obj bE, .obj cE]) k)
    ∧ (∀ k v, k ≠ "properties" → k ≠ "required" →
        cE.lookup k = some v →
        jsonLookup (mergeAllOfSchemas doc [.obj aE, .obj bE, .obj cE]) k
          = some v) := by
  have hU1 : uniqueKeys (mergeAllOfStep doc ([], []) (.obj aE)).1 :=
    mergeAllOfStep_uniq doc ([], []) (.obj aE) (by simp [uniqueKeys, entryKeys])
  have hU2 : uniqueKeys (mergeAllOfStep doc
      (mergeAllOfStep doc ([], []) (.obj aE)) (.obj bE)).1 :=
    mergeAllOfStep_uniq doc _ (.obj bE) hU1
  have hR1 : (mergeAllOfStep doc ([], []) (.obj aE)).1.lookup "$ref" = none :=
    mergeAllOfStep_obj_ref_none doc ([], []) aE haR haU rfl
  have hR2 : (mergeAllOfStep doc
      (mergeAllOfStep doc ([], []) (.obj aE)) (.obj bE)).1.lookup "$ref"
        = none :=
    mergeAllOfStep_obj_ref_none doc _ bE hbR hbU hR1
  have hQ1 : (mergeAllOfStep doc ([], []) (.obj aE)).1.lookup "required"
      = none := by
    rw [mergeAllOfStep_obj_lookup_req doc ([], []) aE haR]
    rfl
  have hQ2 : (mergeAllOfStep doc
      (mergeAllOfStep doc ([], []) (.obj aE)) (.obj bE)).1.lookup "required"
        = none := by
    rw [mergeAllOfStep_obj_lookup_req doc _ bE hbR]
    exact hQ1
  have hPinit : propsInv (([], []) : List (String × Json) × List Json) := by
    unfold propsInv
    exact Or.inl rfl
  have hP2 : propsInv (mergeAllOfStep doc
      (mergeAllOfStep doc ([], []) (.obj aE)) (.obj bE)) :=
    mergeAllOfStep_obj_propsInv doc _ bE hbR
      (mergeAllOfStep_obj_propsInv doc ([], []) aE haR hPinit)
  have hDinit : noDupBeq ((([], []) : List (String × Json) × List Json)).2 := by
    unfold noDupBeq
    exact List.Pairwise.nil
  have hD2 : noDupBeq (mergeAllOfStep doc
      (mergeAllOfStep doc ([], []) (.obj aE)) (.obj bE)).2 :=
    mergeAllOfStep_obj_snd_noDup doc _ bE hbR
      (mergeAllOfStep_obj_snd_noDup doc ([], []) aE haR hDinit)
  obtain ⟨hcx1, hcx2⟩ := step_init_on_finalized doc
    (mergeAllOfStep doc (mergeAllOfStep doc ([], []) (.obj aE)) (.obj bE)).1
    (mergeAllOfStep doc (mergeAllOfStep doc ([], []) (.obj aE)) (.obj bE)).2
    hU2 hR2 hQ2 hP2 hD2
  obtain ⟨hcg1, hcg2⟩ := mergeAllOfStep_obj_congr doc cE hcR _ _ hcx1 hcx2
  have hM : mergeAllOfSchemas doc [.obj aE, .obj bE]
      = .obj (if (mergeAllOfStep doc
            (mergeAllOfStep doc ([], []) (.obj aE)) (.obj bE)).2.length > 0
          then objSet (mergeAllOfStep doc
              (mergeAllOfStep doc ([], []) (.obj aE)) (.obj bE)).1 "required"
            (.arr (mergeAllOfStep doc
              (mergeAllOfStep doc ([], []) (.obj aE)) (.obj bE)).2)
          else (mergeAllOfStep doc
            (mergeAllOfStep doc ([], []) (.obj aE)) (.obj bE)).1) := by
    rw [mergeAllOfSchemas_two doc (.obj aE) (.obj bE), finalizeMerge_obj]
  have hRt : mergeAllOfSchemas doc [.obj aE, .obj bE, .obj cE]
      = finalizeMerge (mergeAllOfStep doc (mergeAllOfStep doc
          (mergeAllOfStep doc ([], []) (.obj aE)) (.obj bE)) (.obj cE)) :=
    mergeAllOfSchemas_three doc (.obj aE) (.obj bE) (.obj cE)
  constructor
  · intro k
    rw [mergeAllOfSchemas_two doc (mergeAllOfSchemas doc [.obj aE, .obj bE])
      (.obj cE), hM, hRt]
    exact finalizeMerge_lookup_congr _ _ hcg1 hcg2 k
  · intro k v hkp hkr hck
    rw [hRt, finalizeMerge_lookup_other _ k hkr,
      mergeAllOfStep_obj_lookup_other doc _ cE hcR hcU k hkp hkr, hck]

theorem allOf_merge_associative_witness :
    (jsonLookup (mergeAllOfSchemas Json.null
        [mergeAllOfSchemas Json.null
          [.obj [("properties", .obj [("x", .obj [("type", .str "string")])]),
                 ("required", .arr [.str "x"]), ("title", .str "A")],
           .obj [("required", .arr [.str "y", .str "x"])]],
         .obj [("title", .str "C")]]) "title"
      = jsonLookup (mergeAllOfSchemas Json.null
          [.obj [("properties", .obj [("x", .obj [("type", .str "string")])]),
                 ("required", .arr [.str "x"]), ("title", .str "A")],
           .obj [("required", .arr [.str "y", .str "x"])],
           .obj [("title", .str "C")]]) "title")
    ∧ jsonLookup (mergeAllOfSchemas Json.null
          [.obj [("properties", .obj [("x", .obj [("type", .str "string")])]),
                 ("required", .arr [.str "x"]), ("title", .str "A")],
           .obj [("required", .arr [.str "y", .str "x"])],
           .obj [("title", .str "C")]]) "title"
      = some (.str "C") := by
  have h := allOf_merge_associative Json.null
    [("properties", .obj [("x", .obj [("type", .str "string")])]),
     ("required", .arr [.str "x"]), ("title", .str "A")]
    [("required", .arr [.str "y", .str "x"])]
    [("title", .str "C")]
    rfl rfl rfl (by unfold uniqueKeys; decide) (by unfold uniqueKeys; decide)
    (by unfold uniqueKeys; decide)
  exact ⟨h.1 "title", h.2 "title" (.str "C") (by decide) (by decide) rfl⟩
